import Mathlib

/-!
# server-starter: the inheritance string and the supervisor state

A shallow embedding of `listener/listener.go` (the child-side parser of
`SERVER_STARTER_PORT`) and of the supervisor state of `starter.go`.

Go strings are modelled as lists of Unicode characters (`Str`); the functions
of the Go standard library that the code calls (`strings.Split`,
`strings.SplitN`, `strings.TrimSpace`, `strconv.ParseUint`, `fmt.Sprintf`)
are modelled by the definitions of the first section.
-/

namespace listener

/-- A Go string, as the list of its characters. -/
abbrev Str := List Char

/-! ## Standard-library functions used by the package -/

/-- The predicate `unicode.IsSpace`: the Latin-1 white space characters and the
other code points of the Unicode `White_Space` property. -/
def IsSpace (r : Char) : Bool :=
  let n := r.toNat
  if n ≤ 0xFF then
    n == 0x09 || n == 0x0A || n == 0x0B || n == 0x0C || n == 0x0D || n == 0x20
      || n == 0x85 || n == 0xA0
  else
    n == 0x1680 || (0x2000 ≤ n && n ≤ 0x200A) || n == 0x2028 || n == 0x2029
      || n == 0x202F || n == 0x205F || n == 0x3000

/-- The function `strings.TrimSpace`: all leading and trailing white space
removed. -/
def TrimSpace (s : Str) : Str :=
  (s.dropWhile IsSpace).rdropWhile IsSpace

/-- The call `strings.Split(s, sep)` for a one-character separator: the
substrings between the separators, one more than there are separators. -/
def Split (s : Str) (sep : Char) : List Str :=
  s.splitOn sep

/-- The call `strings.Join(elems, sep)` for a one-character separator. -/
def Join (elems : List Str) (sep : Char) : Str :=
  [sep].intercalate elems

/-- The call `strings.SplitN(s, sep, 2)` for a one-character separator: the
string cut at the first separator, or the string alone when it has none. -/
def SplitN2 (s : Str) (sep : Char) : List Str :=
  if sep ∈ s then
    [s.takeWhile (fun c => c != sep), (s.dropWhile (fun c => c != sep)).tail]
  else
    [s]

/-- The two errors of `strconv`. -/
inductive NumError where
  | ErrSyntax
  | ErrRange
  deriving DecidableEq, Repr

/-- The test `'0' <= c && c <= '9'` of `strconv.ParseUint`. -/
def isDecDigit (c : Char) : Bool :=
  48 ≤ c.toNat && c.toNat ≤ 57

/-- The loop of `strconv.ParseUint` in base 10 over 64-bit unsigned
arithmetic: `cutoff` is `maxUint64/10 + 1`, the sum `n*10 + d` wraps modulo
`2^64`, and a wrapped sum or one above `maxVal` is a range error. -/
def parseUintLoop (maxVal : Nat) : Str → Nat → Except NumError Nat
  | [], n => .ok n
  | c :: cs, n =>
    if isDecDigit c then
      let d := c.toNat - 48
      if n ≥ (2 ^ 64 - 1) / 10 + 1 then .error .ErrRange
      else
        let n10 := n * 10 % 2 ^ 64
        let n1 := (n10 + d) % 2 ^ 64
        if n1 < n10 ∨ n1 > maxVal then .error .ErrRange
        else parseUintLoop maxVal cs n1
    else .error .ErrSyntax

/-- The call `strconv.ParseUint(s, 10, 0)`, where `intSize` is the width of
the machine word (`strconv.IntSize`, 32 or 64). -/
def ParseUint (intSize : Nat) (s : Str) : Except NumError Nat :=
  if s = [] then .error .ErrSyntax
  else parseUintLoop (2 ^ intSize - 1) s 0

/-- The verb `%d` of `fmt.Sprintf` on an unsigned value: its decimal digits. -/
def FormatUint (u : Nat) : Str :=
  Nat.toDigits 10 u

/-! ## `listener.go` -/

/-- The errors `parseListenTargets` returns: the sentinel
`ErrNoListeningTarget`, and the two `fmt.Errorf` values, which carry the
offending pair. -/
inductive ParseError where
  | ErrNoListeningTarget
  | missingFd (pairString : Str)
  | invalidFd (pairString : Str) (err : NumError)
  deriving DecidableEq, Repr

/-- The struct `listenConfig`; `fd` is a `uintptr`. -/
structure listenConfig where
  addr : Str
  fd : Nat
  deriving DecidableEq, Repr

/-- The slice type `ListenConfigs`. -/
abbrev ListenConfigs := List listenConfig

/-- The method `listenConfig.String`: `fmt.Sprintf("%s=%d", l.addr, l.fd)`. -/
def listenConfig.String (l : listenConfig) : Str :=
  l.addr ++ '=' :: FormatUint l.fd

/-- The method `ListenConfigs.String`: every config followed by `;` is written
to the builder and the last `;` is cut off. -/
def ListenConfigs.String (ll : ListenConfigs) : Str :=
  if ll.length = 0 then []
  else
    let s := ll.foldl (fun builder l => builder ++ l.String ++ [';']) []
    s.take (s.length - 1)

/-- The loop of `parseListenTargets` over the raw pairs: the first pair that
does not parse ends the loop with its error. -/
def parsePairs (intSize : Nat) : List Str → Except ParseError ListenConfigs
  | [] => .ok []
  | pairString :: rest =>
    let pair := SplitN2 pairString '='
    if pair.length ≠ 2 then .error (.missingFd pairString)
    else
      let addr := TrimSpace (pair.getD 0 [])
      let fdString := TrimSpace (pair.getD 1 [])
      match ParseUint intSize fdString with
      | .error err => .error (.invalidFd pairString err)
      | .ok fd =>
        match parsePairs intSize rest with
        | .error e => .error e
        | .ok ret => .ok ({ addr := addr, fd := fd } :: ret)

/-- The function `parseListenTargets`. The Go result `(ListenConfigs, error)`
is a pair of options: `none` on the left is the nil slice, `none` on the right
the nil error. -/
def parseListenTargets (intSize : Nat) (str : Str) (ok : Bool) :
    Option ListenConfigs × Option ParseError :=
  if !ok then (none, some .ErrNoListeningTarget)
  else if str = [] then (some [], none)
  else
    match parsePairs intSize (Split str ';') with
    | .error e => (none, some e)
    | .ok ret => (some ret, none)

/-- What `ListenConfigs.Listen` returns: the result of `l.Listen()` for a
config `l` of the list, or one of its own errors. -/
inductive ListenResult where
  | listen (l : listenConfig)
  | resolveError
  | unknownNetwork (network : Str)
  | notBound (address : Str)
  deriving DecidableEq, Repr

/-- The method `ListenConfigs.Listen`. For the TCP networks the address list
comes from the resolver (`net.SplitHostPort`, `LookupPort`, `LookupIPAddr`),
taken as the parameter `resolve`; for the Unix networks it is the address
itself. The first config whose `String()` equals an address of the list is
opened. -/
def ListenConfigs.Listen (resolve : Str → Str → Option (List Str))
    (ll : ListenConfigs) (network address : Str) : ListenResult :=
  let addrlist : Option (Option (List Str)) :=
    if network = "tcp".toList ∨ network = "tcp4".toList ∨ network = "tcp6".toList then
      some (resolve network address)
    else if network = "unix".toList ∨ network = "unixpacket".toList then
      some (some [address])
    else none
  match addrlist with
  | none => .unknownNetwork network
  | some none => .resolveError
  | some (some addrs) =>
    match ll.find? (fun l => addrs.any (fun addr => l.String == addr)) with
    | some l => .listen l
    | none => .notBound address

end listener

/-! ## Specification-side definitions -/

namespace listener

/-- The value of a string of decimal digits. -/
def decValue (s : Str) : Nat :=
  s.foldl (fun n c => n * 10 + (c.toNat - 48)) 0

/-- A base-10 unsigned integer that fits a machine word of `intSize` bits: a
non-empty string of the digits 0 to 9 whose value is below `2 ^ intSize`. -/
def IsUintLiteral (intSize : Nat) (s : Str) : Prop :=
  s ≠ [] ∧ (∀ c ∈ s, isDecDigit c = true) ∧ decValue s < 2 ^ intSize

/-- The text after the first `=` of a segment. -/
def afterFirstEq (seg : Str) : Str :=
  (seg.dropWhile (fun c => c != '=')).tail

/-- The text before the first `=` of a segment. -/
def beforeFirstEq (seg : Str) : Str :=
  seg.takeWhile (fun c => c != '=')

/-- An address that survives the inheritance string: it holds neither `;` nor
`=` and neither starts nor ends with white space. -/
def PlainAddr (addr : Str) : Prop :=
  ';' ∉ addr ∧ '=' ∉ addr ∧ TrimSpace addr = addr

/-- A canonical decimal numeral: digits only, and no leading zero except for
the numeral `0` itself. -/
def CanonicalUint (s : Str) : Prop :=
  s ≠ [] ∧ (∀ c ∈ s, isDecDigit c = true) ∧ (s = ['0'] ∨ s.head? ≠ some '0')

instance (intSize : Nat) (s : Str) : Decidable (IsUintLiteral intSize s) := by
  unfold IsUintLiteral; infer_instance

instance (addr : Str) : Decidable (PlainAddr addr) := by
  unfold PlainAddr; infer_instance

instance (s : Str) : Decidable (CanonicalUint s) := by
  unfold CanonicalUint; infer_instance

end listener

/-! ## `starter.go`: the supervisor state

The supervisor is a state machine. Each method is a function from the state
and the outcomes of the operating-system calls it makes to the new state and
the list of the effects it has outside the state (`Event`). A call that holds
the spawn channel is one step: the channel serialises the spawn attempts.
Log lines are not modelled.
-/

namespace starter

open listener (Str FormatUint Join)

/-- An `os.Signal`, by its number. -/
abbrev Signal := Nat

/-- The signal `syscall.SIGHUP`. -/
def SIGHUP : Signal := 1

/-- The signal `syscall.SIGTERM`. -/
def SIGTERM : Signal := 15

/-- The constant `PortEnvName`. -/
def PortEnvName : Str := "SERVER_STARTER_PORT".toList

/-- The constant `GenerationEnvName`. -/
def GenerationEnvName : Str := "SERVER_STARTER_GENERATION".toList

/-- The verb `%d` of `fmt.Sprintf` on a Go `int`. -/
def FormatInt (i : Int) : Str :=
  if i < 0 then '-' :: FormatUint i.natAbs else FormatUint i.toNat

/-- The errors the spawn path returns: the sentinel `errShutdown`, the error
of the cancelled context, and the errors of `File()` and of `cmd.Start()`. -/
inductive Err where
  | errShutdown
  | ctxErr
  | fileErr
  | startErr
  deriving DecidableEq, Repr

/-- The type `workerState`. -/
inductive workerState where
  | workerStateInit
  | workerStateOld
  | workerStateShutdown
  deriving DecidableEq, Repr

/-- The struct `worker`: its generation and the pid of its process
(`w.cmd.Process.Pid`). Go `int`s are unbounded integers here. -/
structure worker where
  generation : Int
  pid : Int
  deriving DecidableEq, Repr

/-- A bound `net.Listener`: its address `l.Addr().String()` and the descriptor
the parent owns. -/
structure Listener where
  addr : Str
  fd : Nat
  deriving DecidableEq, Repr

/-- The fields of `exec.Cmd` that `tryToStartWorker` sets. -/
structure Cmd where
  Path : Str
  Args : List Str
  ExtraFiles : List Nat
  Env : List Str
  Dir : Str
  deriving DecidableEq, Repr

/-- The effects of the supervisor outside its state: `cmd.Start()` with the
worker it gave (`none` when it failed), the two file operations of the status
writer, `w.Watch()`, `w.Signal(sig, state)` and the send on the autorestart
channel; `lc.Listen(ctx, network, address)` with the listener it gave (`none`
when it failed), `os.Remove(name)`, `l.Close()` on a listener, the cancel of
the supervisor context, and `w.cmd.Process.Signal(sig)`. -/
inductive Event where
  | Start (cmd : Cmd) (w : Option worker)
  | WriteFile (name data : Str)
  | Rename (oldpath newpath : Str)
  | Watch (w : worker)
  | Signal (w : worker) (sig : Signal) (state : workerState)
  | NotifyRestarter
  | Listen (network address : Str) (l : Option Listener)
  | Remove (name : Str)
  | CloseListener (l : Listener)
  | Cancel
  | ProcessSignal (w : worker) (sig : Signal)
  deriving DecidableEq, Repr

/-- The struct `Starter`: the configuration and the fields the supervisor
mutates. `chreload` is the number of tokens in the one-slot reload channel,
`workers` the key set of the worker map, in the order of one iteration, and
`onceClose` whether the `sync.Once` of `Close` has run. -/
structure Starter where
  Command : Str
  Args : List Str
  Ports : List Str
  Paths : List Str
  Interval : Int
  SignalOnHUP : Option Signal
  SignalOnTERM : Option Signal
  KillOldDelay : Int
  StatusFile : Str
  Dir : Str
  EnableAutoRestart : Bool
  listeners : List Listener
  generation : Int
  shutdown : Bool
  chreload : Nat
  workers : List worker
  onceClose : Bool
  deriving DecidableEq, Repr

/-- The outcomes of the operating-system calls of one `tryToStartWorker`:
whether the select takes `s.ctx.Done()`, the duplicate `l.File()` gives for a
listener, the pid `cmd.Start()` gives, `os.Environ()`, `loadEnv(s.EnvDir)`,
`os.Getegid()` and whether `ioutil.WriteFile` succeeds. -/
structure OS where
  ctxDone : Bool
  File : Listener → Option Nat
  Start : Option Int
  Environ : List Str
  loadEnv : List Str
  egid : Nat
  writeFileOk : Bool

/-- The call `sort.Slice(x, less)`, as the insertion sort Go runs on short
slices: an element moves left only past elements it is less than. Go leaves
the order of equal elements open. -/
def sortSlice {α : Type} (less : α → α → Bool) (x : List α) : List α :=
  x.insertionSort (fun a b => less b a = false)

/-- The comparison by generation is total. -/
instance : IsTotal worker (fun a b => decide (b.generation < a.generation) = false) :=
  ⟨fun a b => by simp only [decide_eq_false_iff_not, not_lt]; exact le_total _ _⟩

/-- The comparison by generation is transitive. -/
instance : IsTrans worker (fun a b => decide (b.generation < a.generation) = false) :=
  ⟨fun a b c => by simp only [decide_eq_false_iff_not, not_lt]; exact le_trans⟩

/-- The method `Starter.setShutdown`. -/
def setShutdown (s : Starter) : Starter :=
  { s with shutdown := true }

/-- The method `Starter.getShutdown`. -/
def getShutdown (s : Starter) : Bool :=
  s.shutdown

/-- The method `Starter.killOldDelay`, with `time.Second` as 10^9. -/
def killOldDelay (s : Starter) : Int :=
  if s.KillOldDelay > 0 then s.KillOldDelay
  else if s.EnableAutoRestart then 5 * 1000000000
  else 0

/-- The method `Starter.signalOnHUP`. -/
def signalOnHUP (s : Starter) : Signal :=
  match s.SignalOnHUP with
  | some sig => sig
  | none => SIGTERM

/-- The method `Starter.signalOnTERM`. -/
def signalOnTERM (s : Starter) : Signal :=
  match s.SignalOnTERM with
  | some sig => sig
  | none => SIGTERM

/-- The method `Starter.listWorkers`: the workers of the map, sorted with the
comparator of the source, `workers[i].Pid() < workers[i].Pid()`. -/
def listWorkers (s : Starter) : List worker :=
  sortSlice (fun wi _ => decide (wi.pid < wi.pid)) s.workers

/-- The line `fmt.Fprintf(&buf, "%d:%d\n", w.generation, w.Pid())`. -/
def statusLine (w : worker) : Str :=
  FormatInt w.generation ++ ':' :: FormatInt w.pid ++ ['\n']

/-- The method `Starter.updateStatusLocked`: nothing without a status path;
else the workers sorted by generation are written to `<path>.<egid>`, which is
renamed to the path unless the write failed. -/
def updateStatusLocked (s : Starter) (egid : Nat) (writeFileOk : Bool) : List Event :=
  if s.StatusFile = [] then []
  else
    let workers := sortSlice (fun wi wj => decide (wi.generation < wj.generation)) s.workers
    let buf := (workers.map statusLine).flatten
    let tmp := s.StatusFile ++ '.' :: FormatInt egid
    if writeFileOk then [.WriteFile tmp buf, .Rename tmp s.StatusFile]
    else [.WriteFile tmp buf]

/-- The method `Starter.addWorker`: the worker becomes a key of the map and the
status is written. -/
def addWorker (s : Starter) (w : worker) (egid : Nat) (writeFileOk : Bool) :
    Starter × List Event :=
  let s1 := { s with workers := if w ∈ s.workers then s.workers else s.workers ++ [w] }
  (s1, updateStatusLocked s1 egid writeFileOk)

/-- The method `Starter.removeWorker`: the key is deleted and the status is
written. -/
def removeWorker (s : Starter) (w : worker) (egid : Nat) (writeFileOk : Bool) :
    Starter × List Event :=
  let s1 := { s with workers := s.workers.filter (fun v => v ≠ w) }
  (s1, updateStatusLocked s1 egid writeFileOk)

/-- The first loop of `tryToStartWorker`, from index `i` on: every listener is
duplicated with `File()` and its pair `<address>=<i+3>` is formatted; the first
failing `File()` ends the loop. -/
def dupListeners (File : Listener → Option Nat) :
    List Listener → Nat → Option (List Nat × List Str)
  | [], _ => some ([], [])
  | l :: rest, i =>
    match File l with
    | none => none
    | some f =>
      match dupListeners File rest (i + 1) with
      | none => none
      | some (files, ports) =>
        some (f :: files, (l.addr ++ '=' :: FormatInt ((i : Int) + 3)) :: ports)

/-- The method `Starter.tryToStartWorker`. -/
def tryToStartWorker (s : Starter) (os : OS) : Except Err worker × Starter × List Event :=
  if getShutdown s then (.error .errShutdown, s, [])
  else if os.ctxDone then (.error .ctxErr, s, [])
  else
    match dupListeners os.File s.listeners 0 with
    | none => (.error .fileErr, s, [])
    | some (files, ports) =>
      let s1 := { s with generation := s.generation + 1 }
      let cmd : Cmd :=
        { Path := s1.Command
          Args := s1.Args
          ExtraFiles := files
          Env := os.Environ ++
            [PortEnvName ++ '=' :: Join ports ';',
             GenerationEnvName ++ '=' :: FormatInt s1.generation] ++ os.loadEnv
          Dir := s1.Dir }
      match os.Start with
      | none => (.error .startErr, s1, [.Start cmd none])
      | some pid =>
        let w : worker := { generation := s1.generation, pid := pid }
        let (s2, ev) := addWorker s1 w os.egid os.writeFileOk
        (.ok w, s2, .Start cmd (some w) :: ev)

/-- What other goroutines do to the state while a method waits: a shutdown
path sets the flag, or the `wait` task of an exited worker closes it. -/
inductive Concurrent where
  | setShutdown
  | close (w : worker) (egid : Nat) (writeFileOk : Bool)

/-- The state after the steps of the other goroutines, with their effects. -/
def runConcurrent : Starter → List Concurrent → Starter × List Event
  | s, [] => (s, [])
  | s, .setShutdown :: rest => runConcurrent (setShutdown s) rest
  | s, .close w egid ok :: rest =>
    let (s1, ev1) := removeWorker s w egid ok
    let (s2, ev2) := runConcurrent s1 rest
    (s2, ev1 ++ ev2)

/-- The environment of one pass through the retry loop of `startWorker`: the
outcomes of `tryToStartWorker`, the steps of the other goroutines while the
pass waits, and whether `w.done` fires before the interval timer. -/
structure Attempt where
  os : OS
  during : List Concurrent
  exited : Bool

/-- The method `Starter.startWorker`, for at most `fuel` passes through its
unbounded retry loop, the pass `i` running in the environment `attempts i`.
The result is `none` while the loop has not returned. -/
def startWorker (attempts : Nat → Attempt) :
    Nat → Nat → Starter → Option (Except Err worker) × Starter × List Event
  | 0, _, s => (none, s, [])
  | fuel + 1, i, s =>
    let a := attempts i
    match tryToStartWorker s a.os with
    | (.error _, s1, ev1) =>
      if getShutdown s1 then (some (.error .errShutdown), s1, ev1)
      else
        let (s2, ev2) := runConcurrent s1 a.during
        let (r, s3, ev3) := startWorker attempts fuel (i + 1) s2
        (r, s3, ev1 ++ ev2 ++ ev3)
    | (.ok w, s1, ev1) =>
      let (s2, ev2) := runConcurrent s1 a.during
      if a.exited then
        if getShutdown s2 then (some (.error .errShutdown), s2, ev1 ++ ev2)
        else
          let (r, s3, ev3) := startWorker attempts fuel (i + 1) s2
          (r, s3, ev1 ++ ev2 ++ ev3)
      else
        (some (.ok w), s2,
          ev1 ++ ev2 ++ (if s2.EnableAutoRestart then [.NotifyRestarter] else []))

/-- The environment of one pass through the retry loop of `Reload`: the
environment and the fuel of its `startWorker`, the steps of the other
goroutines during the kill-old delay, and whether `w.done` fires before the
delay timer. -/
structure ReloadPass where
  attempts : Nat → Attempt
  spawnFuel : Nat
  during : List Concurrent
  died : Bool

/-- The retry loop of `Reload`, entered with the reload token held. The result
is `none` while the loop has not returned, `some none` for a nil error. -/
def reloadLoop (passes : Nat → ReloadPass) :
    Nat → Nat → Starter → Option (Option Err) × Starter × List Event
  | 0, _, s => (none, s, [])
  | fuel + 1, i, s =>
    let p := passes i
    match startWorker p.attempts p.spawnFuel 0 s with
    | (none, s1, ev1) => (none, s1, ev1)
    | (some (.error err), s1, ev1) =>
      (some (if err = .errShutdown then none else some err), s1, ev1)
    | (some (.ok w), s1, ev1) =>
      let workers := (listWorkers s1).filter (fun w2 => w2 ≠ w)
      let kill : List Event :=
        .Watch w :: workers.map (fun v => .Signal v (signalOnHUP s1) .workerStateOld)
      if killOldDelay s1 > 0 then
        let (s2, ev2) := runConcurrent s1 p.during
        if p.died then
          if getShutdown s2 then (some none, s2, ev1 ++ ev2)
          else
            let (r, s3, ev3) := reloadLoop passes fuel (i + 1) s2
            (r, s3, ev1 ++ ev2 ++ ev3)
        else (some none, s2, ev1 ++ ev2 ++ kill)
      else (some none, s1, ev1 ++ kill)

/-- The method `Starter.Reload`: without a free slot in the reload channel it
returns nil at once; else it holds the token through the retry loop and gives
it back when it returns. -/
def Reload (passes : Nat → ReloadPass) (fuel : Nat) (s : Starter) :
    Option (Option Err) × Starter × List Event :=
  if s.chreload ≥ 1 then (some none, s, [])
  else
    match reloadLoop passes fuel 0 { s with chreload := s.chreload + 1 } with
    | (none, s1, ev) => (none, s1, ev)
    | (some r, s1, ev) => (some r, { s1 with chreload := s1.chreload - 1 }, ev)

/-- The calls that change the supervisor state. -/
inductive Op where
  | tryToStartWorker (os : OS)
  | startWorker (attempts : Nat → Attempt) (fuel : Nat)
  | Reload (passes : Nat → ReloadPass) (fuel : Nat)
  | removeWorker (w : worker) (egid : Nat) (writeFileOk : Bool)
  | setShutdown

/-- One call on the state: the new state and the effects of the call. -/
def step (s : Starter) : Op → Starter × List Event
  | .tryToStartWorker os => (tryToStartWorker s os).2
  | .startWorker attempts fuel => (startWorker attempts fuel 0 s).2
  | .Reload passes fuel => (Reload passes fuel s).2
  | .removeWorker w egid ok => removeWorker s w egid ok
  | .setShutdown => (setShutdown s, [])

/-- A sequence of calls: the final state and all effects in order. -/
def run : Starter → List Op → Starter × List Event
  | s, [] => (s, [])
  | s, op :: ops =>
    let (s1, ev1) := step s op
    let (s2, ev2) := run s1 ops
    (s2, ev1 ++ ev2)

/-- The workers that the `cmd.Start()` calls of a trace created, in order. -/
def created : List Event → List worker
  | [] => []
  | .Start _ (some w) :: rest => w :: created rest
  | _ :: rest => created rest

/-- The generation bookkeeping of a run from `s` to `t` with the effects `ev`:
the counter did not decrease, every worker the run created has a generation
above the counter at its start and at most the counter at its end, the
generations of the created workers increase strictly, and every child was
given the generation of its worker in `SERVER_STARTER_GENERATION`. -/
def GenInv (s : Starter) (ev : List Event) (t : Starter) : Prop :=
  s.generation ≤ t.generation ∧
    (∀ w ∈ created ev, s.generation < w.generation ∧ w.generation ≤ t.generation) ∧
    (created ev).Pairwise (fun a b => a.generation < b.generation) ∧
    (∀ cmd w, Event.Start cmd (some w) ∈ ev →
      (GenerationEnvName ++ '=' :: FormatInt w.generation) ∈ cmd.Env)

/-- A trace without a `cmd.Start()`. -/
def NoStart (ev : List Event) : Prop :=
  ∀ cmd w, Event.Start cmd w ∉ ev

/-- A `Starter` value as the caller of `Run` builds it: the configuration is
set and the unexported fields are zero. -/
def fresh (command : Str) (ports : List Str) (statusFile : Str) : Starter :=
  { Command := command, Args := [], Ports := ports, Paths := [], Interval := 0,
    SignalOnHUP := none, SignalOnTERM := none, KillOldDelay := 0,
    StatusFile := statusFile, Dir := [], EnableAutoRestart := false,
    listeners := [], generation := 0, shutdown := false, chreload := 0, workers := [],
    onceClose := false }

/-- A supervisor after boot: a TCP and a Unix listener are bound and a status
path is configured. -/
def booted : Starter :=
  { fresh "/bin/sleep".toList ["8080".toList] "status".toList with
    Paths := ["/tmp/x.sock".toList]
    listeners := [⟨"0.0.0.0:8080".toList, 5⟩, ⟨"/tmp/x.sock".toList, 6⟩] }

/-- The booted supervisor with two workers, which the map holds in the order
generation 2, generation 1. -/
def twoWorkers : Starter :=
  { booted with generation := 2, workers := [⟨2, 50⟩, ⟨1, 42⟩] }

/-- An environment in which every call succeeds: `File()` gives the descriptor
`fd + 100` and `cmd.Start()` the given pid. -/
def okOS (pid : Int) : OS :=
  { ctxDone := false, File := fun l => some (l.fd + 100), Start := some pid,
    Environ := [], loadEnv := [], egid := 20, writeFileOk := true }

/-! ## `starter.go`: binding, shutdown and the worker watcher -/

/-- The signal `syscall.SIGINT`. -/
def SIGINT : Signal := 2

/-- The signal `syscall.SIGQUIT`. -/
def SIGQUIT : Signal := 3

/-- The function `net.JoinHostPort`: a host with a colon is put in brackets. -/
def JoinHostPort (host port : Str) : Str :=
  if ':' ∈ host then '[' :: host ++ ']' :: ':' :: port
  else host ++ ':' :: port

/-- The call `strconv.ParseInt(s, 10, 0)` for a machine word of `intSize`
bits: a leading sign is taken off, the rest goes through `ParseUint`, and the
value is checked against the cutoff `1 << (intSize - 1)`. A range error of
`ParseUint` comes with the maximum value, which is over the cutoff, so it
stays a range error. -/
def ParseInt (intSize : Nat) (s : Str) : Except listener.NumError Int :=
  if s = [] then .error .ErrSyntax
  else
    let neg : Bool := s.head? = some '-'
    let s1 := if s.head? = some '+' ∨ s.head? = some '-' then s.tail else s
    match listener.ParseUint intSize s1 with
    | .error err => .error err
    | .ok un =>
      let cutoff := 2 ^ (intSize - 1)
      if neg = false ∧ un ≥ cutoff then .error .ErrRange
      else if neg = true ∧ un > cutoff then .error .ErrRange
      else .ok (if neg then -(un : Int) else (un : Int))

/-- The function `strconv.Atoi`, by its slow path `ParseInt(s, 10, 0)`; the
fast path for short strings gives the same result. -/
def Atoi (intSize : Nat) (s : Str) : Except listener.NumError Int :=
  ParseInt intSize s

/-- The errors of `listen`: `fd options are not supported`, and the error of
a failed `lc.Listen`. -/
inductive ListenErr where
  | fdOptions
  | listenErr (network address : Str)
  deriving DecidableEq, Repr

/-- The outcomes of the operating-system calls of `listen` and `close`: the
listener `lc.Listen` gives for a network and an address when the given
listeners are already bound, whether `os.Lstat` finds a socket at a path, and
whether a listener is a `*net.UnixListener`. -/
structure NetOS where
  Listen : List Listener → Str → Str → Option Listener
  isSocket : Str → Bool
  isUnix : Listener → Bool

/-- The network and the address `listen` binds for a configured port: a port
that `strconv.Atoi` accepts is bound on `tcp4` at `0.0.0.0:<port>`, any other
on `tcp` as it is. -/
def portTarget (intSize : Nat) (port : Str) : Str × Str :=
  match Atoi intSize port with
  | .ok _ => ("tcp4".toList, JoinHostPort "0.0.0.0".toList port)
  | .error _ => ("tcp".toList, port)

/-- The first loop of `listen`, over the ports that are left, with the local
slice `listeners` so far: the error if any, the slice when the loop ends, and
the effects. -/
def listenPorts (intSize : Nat) (net : NetOS) :
    List Str → List Listener → Option ListenErr × List Listener × List Event
  | [], listeners => (none, listeners, [])
  | port :: rest, listeners =>
    if '=' ∈ port then (some .fdOptions, listeners, [])
    else
      let target := portTarget intSize port
      match net.Listen listeners target.1 target.2 with
      | none =>
        (some (.listenErr target.1 target.2), listeners, [.Listen target.1 target.2 none])
      | some l =>
        let (err, ls, ev) := listenPorts intSize net rest (listeners ++ [l])
        (err, ls, .Listen target.1 target.2 (some l) :: ev)

/-- The second loop of `listen`, over the paths that are left: a socket file
at the path is removed, the path is removed once more, and the path is bound
on `unix`. -/
def listenPaths (net : NetOS) :
    List Str → List Listener → Option ListenErr × List Listener × List Event
  | [], listeners => (none, listeners, [])
  | path :: rest, listeners =>
    let rm : List Event :=
      (if net.isSocket path then [.Remove path] else []) ++ [.Remove path]
    match net.Listen listeners "unix".toList path with
    | none =>
      (some (.listenErr "unix".toList path), listeners,
        rm ++ [.Listen "unix".toList path none])
    | some l =>
      let (err, ls, ev) := listenPaths net rest (listeners ++ [l])
      (err, ls, rm ++ .Listen "unix".toList path (some l) :: ev)

/-- The method `Starter.listen`: the ports are bound, then the paths, and only
then is the slice stored in `s.listeners`; an error returns at once. -/
def listen (intSize : Nat) (net : NetOS) (s : Starter) :
    Option ListenErr × Starter × List Event :=
  match listenPorts intSize net s.Ports [] with
  | (some err, _, ev1) => (some err, s, ev1)
  | (none, ls1, ev1) =>
    match listenPaths net s.Paths ls1 with
    | (some err, _, ev2) => (some err, s, ev1 ++ ev2)
    | (none, ls2, ev2) => (none, { s with listeners := ls2 }, ev1 ++ ev2)

/-- The listeners that a trace bound with `lc.Listen`, in order. -/
def bound : List Event → List Listener
  | [] => []
  | .Listen _ _ (some l) :: rest => l :: bound rest
  | _ :: rest => bound rest

/-- The method `Starter.close`: the context is cancelled and every listener of
`s.Listeners()` is closed, the socket file of a Unix listener being removed.
The log file and the pid file are not modelled. -/
def close (net : NetOS) (s : Starter) : List Event :=
  .Cancel :: (s.listeners.map (fun l =>
    .CloseListener l :: (if net.isUnix l then [.Remove l.addr] else []))).flatten

/-- The method `Starter.Close`: `close` runs once. -/
def Close (net : NetOS) (s : Starter) : Starter × List Event :=
  if s.onceClose then (s, [])
  else ({ s with onceClose := true }, close net s)

/-- The method `Starter.shutdownBySignal`; `ctxDone` tells whether the select
takes `s.ctx.Done()` instead of the spawn channel. The received signal
`SIGTERM` is relayed as `signalOnTERM()`, any other as `SIGTERM`. -/
def shutdownBySignal (net : NetOS) (ctxDone : Bool) (s : Starter) (recv : Signal) :
    Starter × List Event :=
  if getShutdown s = false ∧ ctxDone = true then (s, [])
  else
    let s1 := if getShutdown s = false then setShutdown s else s
    let signal := if recv = SIGTERM then signalOnTERM s1 else SIGTERM
    let workers := listWorkers s1
    let (s2, ev) := Close net s1
    (s2, workers.map (fun w => .Signal w signal .workerStateShutdown) ++ ev)

/-- The branch the first select of `Shutdown` takes. -/
inductive ShutdownSelect where
  | acquired
  | ctxDone
  | starterDone
  deriving DecidableEq, Repr

/-- The method `Starter.Shutdown`: `sel` is the branch of its first select and
`timeout` tells whether the caller's context is done before every worker has
exited; `during` are the steps of the other goroutines while it waits. The
result is `some .ctxErr` for `ctx.Err()` and `none` for nil. -/
def Shutdown (net : NetOS) (sel : ShutdownSelect) (during : List Concurrent) (timeout : Bool)
    (s : Starter) : Option Err × Starter × List Event :=
  if getShutdown s = false ∧ sel = .ctxDone then (some .ctxErr, s, [])
  else if getShutdown s = false ∧ sel = .starterDone then (none, s, [])
  else
    let s1 := if getShutdown s = false then setShutdown s else s
    let workers := listWorkers s1
    let sigs : List Event :=
      workers.map (fun w => .Signal w (signalOnTERM s1) .workerStateShutdown)
    let (s2, ev2) := runConcurrent s1 during
    if timeout then (some .ctxErr, s2, sigs ++ ev2)
    else
      let (s3, ev3) := Close net s2
      (none, s3, sigs ++ ev2 ++ ev3)

/-- The struct `workerSignal`. -/
structure workerSignal where
  signal : Signal
  state : workerState
  deriving DecidableEq, Repr

/-- The branch a pass of the select of `watch` takes: a command from
`w.chsig`, or `w.done`. -/
inductive WatchSelect where
  | chsig (sig : workerSignal)
  | done
  deriving DecidableEq, Repr

/-- What `watch` does when the worker has exited, by the state it tracks. -/
inductive WatchExit where
  | restart
  | oldDied
  | died
  deriving DecidableEq, Repr

/-- The loop of `worker.watch` from the value `state` of its local variable: a
command sets the variable to `sig.state` and sends `sig.signal` to the
process; `w.done` ends the loop on the branch of the current state. The
result is the values the variable takes, command by command, the branch at
the exit (`none` while the loop still waits) and the effects. -/
def watchLoop (w : worker) :
    workerState → List WatchSelect → List workerState × Option WatchExit × List Event
  | _, [] => ([], none, [])
  | _, .chsig sig :: rest =>
    let (states, exit, ev) := watchLoop w sig.state rest
    (sig.state :: states, exit, .ProcessSignal w sig.signal :: ev)
  | state, .done :: _ =>
    match state with
    | .workerStateInit => ([], some .restart, [])
    | .workerStateOld => ([], some .oldDied, [])
    | .workerStateShutdown => ([], some .died, [])

/-- The method `worker.watch`: the loop starts in `workerStateInit`. -/
def watch (w : worker) (sel : List WatchSelect) :
    List workerState × Option WatchExit × List Event :=
  watchLoop w .workerStateInit sel

/-- The task `watch` starts on the `restart` branch: without a free slot in
the reload channel it does nothing; else it holds the token through
`startWorker` and watches the new worker. The result is `false` while
`startWorker` has not returned. -/
def watchRestart (attempts : Nat → Attempt) (fuel : Nat) (s : Starter) :
    Bool × Starter × List Event :=
  if s.chreload ≥ 1 then (true, s, [])
  else
    match startWorker attempts fuel 0 { s with chreload := s.chreload + 1 } with
    | (none, s1, ev) => (false, s1, ev)
    | (some (.error _), s1, ev) => (true, { s1 with chreload := s1.chreload - 1 }, ev)
    | (some (.ok w), s1, ev) =>
      (true, { s1 with chreload := s1.chreload - 1 }, ev ++ [.Watch w])

/-- The errors of `Run`. -/
inductive RunErr where
  | commandRequired
  | listen (err : ListenErr)
  | spawn (err : Err)
  deriving DecidableEq, Repr

/-- The method `Starter.Run` on the supervisor path (no `Version`, `Help`,
`Restart` or `Stop` flag, no log file, no pid file): the reload token is
taken, the listeners are bound, the first worker is started and watched, and
the token is given back; `Close` is deferred from before the token is taken.
The result is `none` while `Run` has not returned: after the boot it waits
for the tasks of the supervisor. -/
def Run (intSize : Nat) (net : NetOS) (attempts : Nat → Attempt) (fuel : Nat) (s : Starter) :
    Option (Option RunErr) × Starter × List Event :=
  if s.Command = [] then (some (some .commandRequired), s, [])
  else
    let s0 := { s with chreload := s.chreload + 1 }
    match listen intSize net s0 with
    | (some err, s1, ev1) =>
      let (s2, ev2) := Close net s1
      (some (some (.listen err)), s2, ev1 ++ ev2)
    | (none, s1, ev1) =>
      match startWorker attempts fuel 0 s1 with
      | (none, s2, ev2) => (none, s2, ev1 ++ ev2)
      | (some (.error err), s2, ev2) =>
        let (s3, ev3) := Close net s2
        (some (if err = .errShutdown then none else some (.spawn err)), s3, ev1 ++ ev2 ++ ev3)
      | (some (.ok w), s2, ev2) =>
        (none, { s2 with chreload := s2.chreload - 1 }, ev1 ++ ev2 ++ [.Watch w])

/-- Every call on the supervisor state that the model has: the calls of `Op`,
and `listen`, `Close`, `shutdownBySignal`, `Shutdown`, the restart task of
`watch` and `Run`, each with the outcomes of its operating-system calls. -/
inductive Call where
  | op (o : Op)
  | listen (intSize : Nat) (net : NetOS)
  | Close (net : NetOS)
  | shutdownBySignal (net : NetOS) (ctxDone : Bool) (recv : Signal)
  | Shutdown (net : NetOS) (sel : ShutdownSelect) (during : List Concurrent) (timeout : Bool)
  | watchRestart (attempts : Nat → Attempt) (fuel : Nat)
  | Run (intSize : Nat) (net : NetOS) (attempts : Nat → Attempt) (fuel : Nat)

/-- One call of `Call` on the state: the new state and the effects. -/
def stepCall (s : Starter) : Call → Starter × List Event
  | .op o => step s o
  | .listen intSize net => (listen intSize net s).2
  | .Close net => Close net s
  | .shutdownBySignal net ctxDone recv => shutdownBySignal net ctxDone s recv
  | .Shutdown net sel during timeout => (Shutdown net sel during timeout s).2
  | .watchRestart attempts fuel => (watchRestart attempts fuel s).2
  | .Run intSize net attempts fuel => (Run intSize net attempts fuel s).2

/-- A sequence of calls of `Call`: the final state and all effects in order. -/
def runCalls : Starter → List Call → Starter × List Event
  | s, [] => (s, [])
  | s, c :: cs =>
    let (s1, ev1) := stepCall s c
    let (s2, ev2) := runCalls s1 cs
    (s2, ev1 ++ ev2)

/-- What a call leaves alone once the shutdown flag is set, from the state `s`
to the state `t` with the effects `ev`: the flag is still set, the generation
counter has not moved, no worker has joined the worker set and no
`cmd.Start()` was run. -/
def ShutdownFrame (s : Starter) (ev : List Event) (t : Starter) : Prop :=
  t.shutdown = true ∧ t.generation = s.generation ∧ (∀ v ∈ t.workers, v ∈ s.workers) ∧
    NoStart ev

/-- A bare integer, as a configured port: an optional sign and then decimal
digits, with a value that a Go `int` of `intSize` bits holds. -/
def IsBareInteger (intSize : Nat) (port : Str) : Prop :=
  let digits := if port.head? = some '+' ∨ port.head? = some '-' then port.tail else port
  digits ≠ [] ∧ (∀ c ∈ digits, listener.isDecDigit c = true) ∧
    (if port.head? = some '-' then listener.decValue digits ≤ 2 ^ (intSize - 1)
      else listener.decValue digits < 2 ^ (intSize - 1))

instance (intSize : Nat) (port : Str) : Decidable (IsBareInteger intSize port) := by
  unfold IsBareInteger; infer_instance

/-- The relay signal of a shutdown, in the words of the specification: the
configured TERM-relay, `SIGTERM` when none is configured, if the received
signal is `SIGTERM`, and plain `SIGTERM` otherwise. -/
def termRelay (configured : Option Signal) (recv : Signal) : Signal :=
  if recv = SIGTERM then configured.getD SIGTERM else SIGTERM

/-- The `lc.Listen` calls of a trace, in order: the network and address that
were asked for and the listener the call gave. -/
def listens : List Event → List ((Str × Str) × Option Listener)
  | [] => []
  | .Listen network address l :: rest => ((network, address), l) :: listens rest
  | _ :: rest => listens rest

/-- A worker-state history in which the state changes at most once away from
`workerStateInit`: a value other than `workerStateInit` is never followed by a
different value. -/
def ChangesAtMostOnce (states : List workerState) : Prop :=
  ∀ (i j : Nat) (a b : workerState), i < j → states[i]? = some a → states[j]? = some b →
    a ≠ .workerStateInit → b = a

/-- A trace without a `w.Watch()` and without a `w.Signal`. -/
def NoWatchSignal (ev : List Event) : Prop :=
  (∀ w, Event.Watch w ∉ ev) ∧ ∀ w sig state, Event.Signal w sig state ∉ ev

/-- The configuration does not change from `s` to `t`: the HUP-relay, the
kill-old delay and the autorestart switch are the same. -/
def SameConfig (s t : Starter) : Prop :=
  t.SignalOnHUP = s.SignalOnHUP ∧ t.KillOldDelay = s.KillOldDelay ∧
    t.EnableAutoRestart = s.EnableAutoRestart

/-- A fresh supervisor configured with the ports 8080 and 8081. -/
def twoPorts : Starter :=
  fresh "/bin/sleep".toList ["8080".toList, "8081".toList] []

/-- An environment of `startWorker` in which the first spawn succeeds with pid
43 and the worker outlives the interval. -/
def healthy : Nat → Attempt :=
  fun _ => { os := okOS 43, during := [], exited := false }

/-- The supervisor with two workers and a kill-old delay of five seconds. -/
def delayed : Starter :=
  { twoWorkers with KillOldDelay := 5000000000 }

/-- An environment of `Reload` in which the worker of the first pass, pid 50,
exits during the kill-old delay and the worker of every later pass survives
it. -/
def diesOnce : Nat → ReloadPass :=
  fun i =>
    { attempts := fun _ => { os := okOS (50 + i), during := [], exited := false }
      spawnFuel := 3
      during := if i = 0 then [.close ⟨3, 50⟩ 20 true] else []
      died := i == 0 }

/-- A fresh supervisor configured with a bare port, a `host:port` and a Unix
path. -/
def mixedPorts : Starter :=
  { fresh "/bin/sleep".toList ["8080".toList, "localhost:99".toList] [] with
    Paths := ["/tmp/x.sock".toList] }

/-- An operating system on which the port 8081 is taken: every other bind
gives a listener with the address that was asked for and the next free
descriptor. -/
def portTaken : NetOS :=
  { Listen := fun listeners _ address =>
      if address = "0.0.0.0:8081".toList then none
      else some { addr := address, fd := listeners.length + 5 }
    isSocket := fun _ => false
    isUnix := fun l => l.addr.head? = some '/' }

/-- An operating system on which every bind succeeds. -/
def allFree : NetOS :=
  { Listen := fun listeners _ address => some { addr := address, fd := listeners.length + 5 }
    isSocket := fun _ => false
    isUnix := fun l => l.addr.head? = some '/' }

end starter

/-! ## Lemmas on decimal numerals -/

namespace listener

theorem digitChar_toNat (d : Nat) (h : d < 10) : (Nat.digitChar d).toNat = 48 + d := by
  interval_cases d <;> rfl

theorem digitChar_isDecDigit (d : Nat) (h : d < 10) : isDecDigit (Nat.digitChar d) = true := by
  interval_cases d <;> rfl

theorem digitChar_of_isDecDigit (c : Char) (h : isDecDigit c = true) :
    Nat.digitChar (c.toNat - 48) = c := by
  have hc : c = Char.ofNat c.toNat := (Char.ofNat_toNat c).symm
  simp only [isDecDigit, Bool.and_eq_true, decide_eq_true_eq] at h
  obtain ⟨h1, h2⟩ := h
  generalize c.toNat = k at *
  subst hc
  interval_cases k <;> rfl

theorem isDecDigit_bounds (c : Char) (h : isDecDigit c = true) :
    48 ≤ c.toNat ∧ c.toNat ≤ 57 := by
  simpa [isDecDigit] using h

theorem toDigitsCore_acc (fuel : Nat) : ∀ (n : Nat) (ds : List Char),
    Nat.toDigitsCore 10 fuel n ds = Nat.toDigitsCore 10 fuel n [] ++ ds := by
  induction fuel with
  | zero => intro n ds; simp [Nat.toDigitsCore]
  | succ f ih =>
    intro n ds
    simp only [Nat.toDigitsCore]
    split
    · simp
    · rw [ih (n / 10) (Nat.digitChar (n % 10) :: ds), ih (n / 10) [Nat.digitChar (n % 10)]]
      simp

theorem toDigitsCore_fuel (f1 : Nat) : ∀ (f2 n : Nat) (ds : List Char), n < f1 → n < f2 →
    Nat.toDigitsCore 10 f1 n ds = Nat.toDigitsCore 10 f2 n ds := by
  induction f1 with
  | zero => intro f2 n ds h; omega
  | succ f ih =>
    intro f2 n ds h1 h2
    cases f2 with
    | zero => omega
    | succ g =>
      simp only [Nat.toDigitsCore]
      split
      · rfl
      · exact ih g (n / 10) _ (by omega) (by omega)

theorem FormatUint_small (n : Nat) (h : n < 10) : FormatUint n = [Nat.digitChar n] := by
  have h0 : n / 10 = 0 := by omega
  have h1 : n % 10 = n := by omega
  simp [FormatUint, Nat.toDigits, Nat.toDigitsCore, h0, h1]

theorem FormatUint_step (n : Nat) (h : 10 ≤ n) :
    FormatUint n = FormatUint (n / 10) ++ [Nat.digitChar (n % 10)] := by
  have h0 : n / 10 ≠ 0 := by omega
  have e : FormatUint n = (if n / 10 = 0 then [Nat.digitChar (n % 10)]
      else Nat.toDigitsCore 10 n (n / 10) [Nat.digitChar (n % 10)]) := rfl
  rw [e, if_neg h0, toDigitsCore_acc,
    toDigitsCore_fuel n (n / 10 + 1) (n / 10) [] (by omega) (by omega)]
  rfl

theorem decValue_append (s : Str) (c : Char) :
    decValue (s ++ [c]) = decValue s * 10 + (c.toNat - 48) := by
  simp [decValue, List.foldl_append]

theorem FormatUint_digits (n : Nat) : ∀ c ∈ FormatUint n, isDecDigit c = true := by
  induction n using Nat.strong_induction_on with
  | _ n ih =>
    by_cases h : n < 10
    · rw [FormatUint_small n h]
      intro c hc
      simp only [List.mem_singleton] at hc
      subst hc
      exact digitChar_isDecDigit n h
    · rw [FormatUint_step n (by omega)]
      intro c hc
      rcases List.mem_append.mp hc with hc | hc
      · exact ih (n / 10) (by omega) c hc
      · simp only [List.mem_singleton] at hc
        subst hc
        exact digitChar_isDecDigit _ (by omega)

theorem FormatUint_ne_nil (n : Nat) : FormatUint n ≠ [] := by
  by_cases h : n < 10
  · rw [FormatUint_small n h]; simp
  · rw [FormatUint_step n (by omega)]; simp

theorem decValue_FormatUint (n : Nat) : decValue (FormatUint n) = n := by
  induction n using Nat.strong_induction_on with
  | _ n ih =>
    by_cases h : n < 10
    · rw [FormatUint_small n h]
      simp only [decValue, List.foldl_cons, List.foldl_nil, digitChar_toNat n h]
      omega
    · rw [FormatUint_step n (by omega), decValue_append, ih (n / 10) (by omega),
        digitChar_toNat _ (by omega)]
      omega

end listener

/-! ## Lemmas on `strconv.ParseUint` -/

namespace listener

theorem le_foldl_dec (s : Str) : ∀ n : Nat,
    n ≤ s.foldl (fun n c => n * 10 + (c.toNat - 48)) n := by
  induction s with
  | nil => intro n; simp
  | cons c cs ih =>
    intro n
    simp only [List.foldl_cons]
    have := ih (n * 10 + (c.toNat - 48))
    omega

theorem parseUintLoop_ok_iff (maxVal : Nat) (hmax : maxVal < 2 ^ 64) (s : Str) :
    ∀ (n m : Nat), n ≤ maxVal →
      (parseUintLoop maxVal s n = .ok m ↔
        (∀ c ∈ s, isDecDigit c = true) ∧
          s.foldl (fun n c => n * 10 + (c.toNat - 48)) n = m ∧ m ≤ maxVal) := by
  have h64 : (2 : Nat) ^ 64 = 18446744073709551616 := by norm_num
  rw [h64] at hmax
  induction s with
  | nil =>
    intro n m hn
    simp only [parseUintLoop, Except.ok.injEq, List.not_mem_nil, false_implies, implies_true,
      List.foldl_nil, true_and]
    constructor
    · intro h; subst h; exact ⟨rfl, hn⟩
    · intro h; exact h.1
  | cons c cs ih =>
    intro n m hn
    by_cases hd : isDecDigit c = true
    · have hb := isDecDigit_bounds c hd
      have hmono := le_foldl_dec cs (n * 10 + (c.toNat - 48))
      simp only [parseUintLoop, hd, if_true, h64, List.foldl_cons, List.mem_cons,
        forall_eq_or_imp, true_and]
      split
      · rename_i hcut
        simp only [reduceCtorEq, false_iff, not_and]
        intro _ hf
        omega
      · rename_i hcut
        split
        · rename_i hov
          simp only [reduceCtorEq, false_iff, not_and]
          intro _ hf
          omega
        · rename_i hov
          have e : (n * 10 % 18446744073709551616 + (c.toNat - 48)) % 18446744073709551616
              = n * 10 + (c.toNat - 48) := by omega
          rw [e]
          exact ih (n * 10 + (c.toNat - 48)) m (by omega)
    · simp only [parseUintLoop, hd, List.mem_cons, forall_eq_or_imp]
      simp

theorem pow_intSize_le (intSize : Nat) (h : intSize ≤ 64) :
    1 ≤ 2 ^ intSize ∧ 2 ^ intSize ≤ 2 ^ 64 :=
  ⟨Nat.one_le_two_pow, Nat.pow_le_pow_right (by decide) h⟩

theorem ParseUint_ok_iff (intSize : Nat) (h : intSize ≤ 64) (s : Str) (m : Nat) :
    ParseUint intSize s = .ok m ↔ IsUintLiteral intSize s ∧ decValue s = m := by
  have hp := pow_intSize_le intSize h
  unfold ParseUint IsUintLiteral
  by_cases hs : s = []
  · simp [hs]
  · simp only [hs, if_false, ne_eq, not_false_eq_true, true_and]
    rw [parseUintLoop_ok_iff (2 ^ intSize - 1) (by omega) s 0 m (by omega)]
    unfold decValue
    constructor
    · rintro ⟨h1, h2, h3⟩
      exact ⟨⟨h1, by omega⟩, h2⟩
    · rintro ⟨⟨h1, h2⟩, h3⟩
      exact ⟨h1, h3, by omega⟩

theorem ParseUint_FormatUint (intSize : Nat) (h : intSize ≤ 64) (fd : Nat)
    (hfd : fd < 2 ^ intSize) : ParseUint intSize (FormatUint fd) = .ok fd := by
  rw [ParseUint_ok_iff intSize h]
  refine ⟨⟨FormatUint_ne_nil fd, FormatUint_digits fd, ?_⟩, decValue_FormatUint fd⟩
  rw [decValue_FormatUint]
  exact hfd

theorem ParseUint_isOk_iff (intSize : Nat) (h : intSize ≤ 64) (s : Str) :
    (∃ m, ParseUint intSize s = .ok m) ↔ IsUintLiteral intSize s := by
  constructor
  · rintro ⟨m, hm⟩
    exact ((ParseUint_ok_iff intSize h s m).mp hm).1
  · intro hs
    exact ⟨decValue s, (ParseUint_ok_iff intSize h s _).mpr ⟨hs, rfl⟩⟩

end listener

/-! ## Lemmas on the string functions -/

namespace listener

theorem isDecDigit_not_special (c : Char) (h : isDecDigit c = true) :
    IsSpace c = false ∧ c ≠ ';' ∧ c ≠ '=' := by
  have hc : c = Char.ofNat c.toNat := (Char.ofNat_toNat c).symm
  obtain ⟨h1, h2⟩ := isDecDigit_bounds c h
  generalize c.toNat = k at *
  subst hc
  interval_cases k <;> decide

theorem TrimSpace_of_no_space (s : Str) (h : ∀ c ∈ s, IsSpace c = false) : TrimSpace s = s := by
  unfold TrimSpace
  have h1 : s.dropWhile IsSpace = s := by
    cases s with
    | nil => rfl
    | cons c cs => simp [List.dropWhile, h c (List.mem_cons_self _ _)]
  rw [h1, List.rdropWhile_eq_self_iff]
  intro hl
  simp [h _ (List.getLast_mem hl)]

theorem TrimSpace_digits (s : Str) (h : ∀ c ∈ s, isDecDigit c = true) : TrimSpace s = s :=
  TrimSpace_of_no_space s (fun c hc => (isDecDigit_not_special c (h c hc)).1)

theorem SplitN2_of_mem (s : Str) (h : '=' ∈ s) :
    SplitN2 s '=' = [beforeFirstEq s, afterFirstEq s] := by
  simp [SplitN2, h, beforeFirstEq, afterFirstEq]

theorem SplitN2_of_not_mem (s : Str) (h : '=' ∉ s) : SplitN2 s '=' = [s] := by
  simp [SplitN2, h]

theorem SplitN2_length (s : Str) : (SplitN2 s '=').length = 2 ↔ '=' ∈ s := by
  by_cases h : '=' ∈ s
  · simp [SplitN2_of_mem s h, h]
  · simp [SplitN2_of_not_mem s h, h]

theorem before_after_append (a b : Str) (h : '=' ∉ a) :
    beforeFirstEq (a ++ '=' :: b) = a ∧ afterFirstEq (a ++ '=' :: b) = b := by
  unfold beforeFirstEq afterFirstEq
  induction a with
  | nil => simp [List.takeWhile_cons, List.dropWhile_cons]
  | cons c cs ih =>
    have hc : c ≠ '=' := fun e => h (by simp [e])
    have hcs : '=' ∉ cs := fun e => h (List.mem_cons_of_mem _ e)
    have hb : (c != '=') = true := by simp [hc]
    simp [List.takeWhile_cons, List.dropWhile_cons, hb, ih hcs]

theorem before_eq_after (s : Str) (h : '=' ∈ s) :
    beforeFirstEq s ++ '=' :: afterFirstEq s = s := by
  unfold beforeFirstEq afterFirstEq
  induction s with
  | nil => simp at h
  | cons c cs ih =>
    by_cases hc : c = '='
    · subst hc; simp [List.takeWhile_cons, List.dropWhile_cons]
    · have hb : (c != '=') = true := by simp [hc]
      have hcs : '=' ∈ cs := by
        rcases List.mem_cons.mp h with e | e
        · exact absurd e.symm hc
        · exact e
      have := ih hcs
      simp [List.takeWhile_cons, List.dropWhile_cons, hb, this]

theorem join_semicolon (x : Str) (xs : List Str) :
    ((x :: xs).map (fun s => s ++ [';'])).flatten = Join (x :: xs) ';' ++ [';'] := by
  unfold Join
  induction xs generalizing x with
  | nil => simp [List.intercalate]
  | cons y ys ih =>
    have := ih y
    simp only [List.map_cons, List.flatten_cons, List.intercalate, List.intersperse] at this ⊢
    rw [this]
    simp

theorem foldl_builder (ll : ListenConfigs) : ∀ acc : Str,
    ll.foldl (fun builder l => builder ++ l.String ++ [';']) acc
      = acc ++ ((ll.map listenConfig.String).map (fun s => s ++ [';'])).flatten := by
  induction ll with
  | nil => intro acc; simp
  | cons l ls ih =>
    intro acc
    simp only [List.foldl_cons, List.map_cons, List.flatten_cons]
    rw [ih]
    simp [List.append_assoc]

theorem String_eq_Join (ll : ListenConfigs) :
    ListenConfigs.String ll = Join (ll.map listenConfig.String) ';' := by
  cases ll with
  | nil => simp [ListenConfigs.String, Join, List.intercalate]
  | cons l ls =>
    have h := foldl_builder (l :: ls) []
    rw [List.nil_append, List.map_cons, join_semicolon] at h
    simp only [ListenConfigs.String, List.length_cons, Nat.add_one_ne_zero, if_false]
    rw [h]
    simp

end listener

/-! ## Lemmas on `parsePairs` -/

namespace listener

theorem String_no_semicolon (l : listenConfig) (h : PlainAddr l.addr) : ';' ∉ l.String := by
  unfold listenConfig.String
  intro hm
  rcases List.mem_append.mp hm with hm | hm
  · exact h.1 hm
  · rcases List.mem_cons.mp hm with hm | hm
    · exact absurd hm (by decide)
    · exact (isDecDigit_not_special _ (FormatUint_digits l.fd _ hm)).2.1 rfl

theorem parsePairs_String (intSize : Nat) (h : intSize ≤ 64) (l : listenConfig)
    (hl : PlainAddr l.addr) (hfd : l.fd < 2 ^ intSize) (rest : List Str) :
    parsePairs intSize (l.String :: rest) =
      match parsePairs intSize rest with
      | .error e => .error e
      | .ok ret => .ok (l :: ret) := by
  have hsplit : SplitN2 l.String '=' = [l.addr, FormatUint l.fd] := by
    have hm : '=' ∈ l.String := by simp [listenConfig.String]
    rw [SplitN2_of_mem _ hm]
    have := before_after_append l.addr (FormatUint l.fd) hl.2.1
    unfold listenConfig.String
    rw [this.1, this.2]
  simp only [parsePairs, hsplit, List.length_cons, List.length_nil, List.getD_cons_zero,
    List.getD_cons_succ, hl.2.2, TrimSpace_digits _ (FormatUint_digits l.fd),
    ParseUint_FormatUint intSize h l.fd hfd]
  simp

theorem parsePairs_map_String (intSize : Nat) (h : intSize ≤ 64) (ll : ListenConfigs)
    (hll : ∀ l ∈ ll, PlainAddr l.addr ∧ l.fd < 2 ^ intSize) :
    parsePairs intSize (ll.map listenConfig.String) = .ok ll := by
  induction ll with
  | nil => rfl
  | cons l ls ih =>
    have hl := hll l (List.mem_cons_self _ _)
    rw [List.map_cons, parsePairs_String intSize h l hl.1 hl.2,
      ih (fun x hx => hll x (List.mem_cons_of_mem _ hx))]

theorem parsePairs_cons_ok (intSize : Nat) (seg : Str) (rest : List Str) (ll : ListenConfigs) :
    parsePairs intSize (seg :: rest) = .ok ll ↔
      '=' ∈ seg ∧ ∃ fd ret, ParseUint intSize (TrimSpace (afterFirstEq seg)) = .ok fd ∧
        parsePairs intSize rest = .ok ret ∧
        ll = { addr := TrimSpace (beforeFirstEq seg), fd := fd } :: ret := by
  by_cases hm : '=' ∈ seg
  · simp only [parsePairs, SplitN2_of_mem seg hm, List.length_cons, List.length_nil,
      List.getD_cons_zero, List.getD_cons_succ, hm, true_and]
    cases hp : ParseUint intSize (TrimSpace (afterFirstEq seg)) with
    | error e => simp
    | ok fd =>
      cases hr : parsePairs intSize rest with
      | error e => simp
      | ok ret =>
        simp only [ne_eq, not_true_eq_false, if_false, Except.ok.injEq, exists_and_left,
          exists_eq_left']
        constructor
        · intro e; exact e.symm
        · intro e; exact e.symm
  · simp [parsePairs, SplitN2_of_not_mem seg hm, hm]

theorem parsePairs_isOk_iff (intSize : Nat) (h : intSize ≤ 64) (segs : List Str) :
    (∃ ll, parsePairs intSize segs = .ok ll) ↔
      ∀ seg ∈ segs, '=' ∈ seg ∧ IsUintLiteral intSize (TrimSpace (afterFirstEq seg)) := by
  induction segs with
  | nil => simp [parsePairs]
  | cons seg rest ih =>
    constructor
    · rintro ⟨ll, hll⟩
      obtain ⟨hm, fd, ret, h1, h2, _⟩ := (parsePairs_cons_ok intSize seg rest ll).mp hll
      intro s hs
      rcases List.mem_cons.mp hs with e | hs
      · subst e
        exact ⟨hm, (ParseUint_isOk_iff intSize h _).mp ⟨fd, h1⟩⟩
      · exact (ih.mp ⟨ret, h2⟩) s hs
    · intro hall
      obtain ⟨hm, hlit⟩ := hall seg (List.mem_cons_self _ _)
      obtain ⟨fd, h1⟩ := (ParseUint_isOk_iff intSize h _).mpr hlit
      obtain ⟨ret, h2⟩ := ih.mpr (fun s hs => hall s (List.mem_cons_of_mem _ hs))
      exact ⟨_, (parsePairs_cons_ok intSize seg rest _).mpr ⟨hm, fd, ret, h1, h2, rfl⟩⟩

theorem parsePairs_length (intSize : Nat) (segs : List Str) : ∀ ll : ListenConfigs,
    parsePairs intSize segs = .ok ll → ll.length = segs.length := by
  induction segs with
  | nil => intro ll h; simp [parsePairs] at h; subst h; rfl
  | cons seg rest ih =>
    intro ll h
    obtain ⟨_, fd, ret, _, h2, h3⟩ := (parsePairs_cons_ok intSize seg rest ll).mp h
    subst h3
    simp [ih ret h2]

end listener

/-! ## Lemmas on canonical numerals -/

namespace listener

theorem decValue_pos (s : Str) (hne : s ≠ []) (hd : ∀ c ∈ s, isDecDigit c = true)
    (h0 : s.head? ≠ some '0') : 1 ≤ decValue s := by
  cases s with
  | nil => exact absurd rfl hne
  | cons c cs =>
    have hb := isDecDigit_bounds c (hd c (List.mem_cons_self _ _))
    have hc : c.toNat ≠ 48 := by
      intro e
      apply h0
      have : c = Char.ofNat c.toNat := (Char.ofNat_toNat c).symm
      rw [e] at this
      simp [this]
    have := le_foldl_dec cs (0 * 10 + (c.toNat - 48))
    simp only [decValue, List.foldl_cons]
    omega

theorem FormatUint_decValue (s : Str) (h : CanonicalUint s) : FormatUint (decValue s) = s := by
  induction s using List.reverseRecOn with
  | nil => exact absurd rfl h.1
  | append_singleton init c ih =>
    obtain ⟨_, hd, hz⟩ := h
    have hc : isDecDigit c = true := hd c (by simp)
    have hb := isDecDigit_bounds c hc
    rw [decValue_append]
    by_cases hi : init = []
    · subst hi
      have e : decValue [] * 10 + (c.toNat - 48) = c.toNat - 48 := by simp [decValue]
      rw [e, FormatUint_small _ (by omega), digitChar_of_isDecDigit c hc]
      rfl
    · have hdi : ∀ x ∈ init, isDecDigit x = true := fun x hx => hd x (by simp [hx])
      have hhead : init.head? ≠ some '0' := by
        rcases hz with hz | hz
        · exfalso
          have := congrArg List.length hz
          simp at this
          exact hi this
        · cases init with
          | nil => exact absurd rfl hi
          | cons a as => simpa using hz
      have hpos := decValue_pos init hi hdi hhead
      have hcan : CanonicalUint init := ⟨hi, hdi, Or.inr hhead⟩
      rw [FormatUint_step _ (by omega)]
      have e1 : (decValue init * 10 + (c.toNat - 48)) / 10 = decValue init := by omega
      have e2 : (decValue init * 10 + (c.toNat - 48)) % 10 = c.toNat - 48 := by omega
      rw [e1, e2, ih hcan, digitChar_of_isDecDigit c hc]

theorem parsePairs_canonical (intSize : Nat) (h : intSize ≤ 64) (segs : List Str) :
    ∀ ll : ListenConfigs, parsePairs intSize segs = .ok ll →
      (∀ seg ∈ segs, TrimSpace (beforeFirstEq seg) = beforeFirstEq seg ∧
        CanonicalUint (afterFirstEq seg)) →
      ll.map listenConfig.String = segs := by
  induction segs with
  | nil => intro ll hp _; simp [parsePairs] at hp; subst hp; rfl
  | cons seg rest ih =>
    intro ll hp hc
    obtain ⟨hm, fd, ret, h1, h2, h3⟩ := (parsePairs_cons_ok intSize seg rest ll).mp hp
    obtain ⟨hb, hcan⟩ := hc seg (List.mem_cons_self _ _)
    rw [TrimSpace_digits _ hcan.2.1] at h1
    have hfd : fd = decValue (afterFirstEq seg) :=
      ((ParseUint_ok_iff intSize h _ fd).mp h1).2.symm
    subst h3
    rw [List.map_cons, ih ret h2 (fun s hs => hc s (List.mem_cons_of_mem _ hs))]
    congr 1
    simp only [listenConfig.String, hb, hfd, FormatUint_decValue _ hcan]
    exact before_eq_after seg hm

end listener


/-! ## The inheritance string: format and parse -/

namespace listener

/-- C1, counterexample: the address `/tmp/a=b.sock` with fd 3 is formatted as
`/tmp/a=b.sock=3`, which `parseListenTargets` rejects, so formatting and then
parsing does not give the pair back. -/
theorem roundtrip_fails_on_equals_in_address :
    ListenConfigs.String [⟨"/tmp/a=b.sock".toList, 3⟩] = "/tmp/a=b.sock=3".toList ∧
      parseListenTargets 64 (ListenConfigs.String [⟨"/tmp/a=b.sock".toList, 3⟩]) true
        = (none, some (.invalidFd "/tmp/a=b.sock=3".toList .ErrSyntax)) ∧
      parseListenTargets 64 (ListenConfigs.String [⟨"/tmp/a=b.sock".toList, 3⟩]) true
        ≠ (some [⟨"/tmp/a=b.sock".toList, 3⟩], none) := by
  decide

/-- C1, amended: for every list of pairs whose addresses hold neither `;` nor
`=` and neither start nor end with white space, and whose fds fit the machine
word, formatting the list with `ListenConfigs.String` and parsing the result
with `parseListenTargets(str, true)` succeeds and yields the same pairs in the
same order; the empty list gives the empty string, which parses to the empty
list. -/
theorem parseListenTargets_String_roundtrip (intSize : Nat) (h : intSize ≤ 64)
    (ll : ListenConfigs) (hll : ∀ l ∈ ll, PlainAddr l.addr ∧ l.fd < 2 ^ intSize) :
    parseListenTargets intSize (ListenConfigs.String ll) true = (some ll, none) ∧
      ListenConfigs.String [] = [] := by
  refine ⟨?_, rfl⟩
  cases ll with
  | nil => rfl
  | cons l ls =>
    have hne : ListenConfigs.String (l :: ls) ≠ [] := by
      rw [String_eq_Join]
      intro e
      have hm : '=' ∈ Join ((l :: ls).map listenConfig.String) ';' := by
        cases ls with
        | nil => simp [Join, List.intercalate, listenConfig.String]
        | cons l2 ls2 => simp [Join, List.intercalate, listenConfig.String]
      rw [e] at hm
      simp at hm
    have hsplit : Split (ListenConfigs.String (l :: ls)) ';'
        = (l :: ls).map listenConfig.String := by
      rw [String_eq_Join]
      unfold Split Join
      apply List.splitOn_intercalate
      · intro x hx
        obtain ⟨c, hc, rfl⟩ := List.mem_map.mp hx
        exact String_no_semicolon c (hll c hc).1
      · simp
    simp only [parseListenTargets, Bool.not_true, Bool.false_eq_true, if_false, hne, hsplit,
      parsePairs_map_String intSize h (l :: ls) hll]

/-- C1, witness: the two-listener string of the package test. -/
theorem parseListenTargets_String_roundtrip_witness :
    parseListenTargets 64
        (ListenConfigs.String [⟨"0.0.0.0:80".toList, 3⟩, ⟨"/tmp/foo.sock".toList, 4⟩]) true
      = (some [⟨"0.0.0.0:80".toList, 3⟩, ⟨"/tmp/foo.sock".toList, 4⟩], none) :=
  (parseListenTargets_String_roundtrip 64 (by decide)
    [⟨"0.0.0.0:80".toList, 3⟩, ⟨"/tmp/foo.sock".toList, 4⟩] (by decide)).1

/-- C2, counterexample: `parseListenTargets` accepts `a=03`, and `String()` on
the result gives `a=3`, not the string that was parsed. -/
theorem String_parse_differs_on_leading_zero :
    parseListenTargets 64 "a=03".toList true = (some [⟨"a".toList, 3⟩], none) ∧
      ListenConfigs.String [⟨"a".toList, 3⟩] = "a=3".toList ∧
      ListenConfigs.String [⟨"a".toList, 3⟩] ≠ "a=03".toList := by
  decide

/-- C2, amended: for every string that `parseListenTargets(str, true)` accepts
and in which every segment is written canonically (no white space around the
address, and after the first `=` a numeral without white space or leading
zeros), `String()` on the returned list gives back exactly the string. -/
theorem String_parseListenTargets_canonical (intSize : Nat) (h : intSize ≤ 64) (str : Str)
    (ll : ListenConfigs) (hparse : parseListenTargets intSize str true = (some ll, none))
    (hcanon : str = [] ∨ ∀ seg ∈ Split str ';',
      TrimSpace (beforeFirstEq seg) = beforeFirstEq seg ∧ CanonicalUint (afterFirstEq seg)) :
    ListenConfigs.String ll = str := by
  by_cases hs : str = []
  · subst hs
    simp [parseListenTargets] at hparse
    subst hparse
    rfl
  · have hc := hcanon.resolve_left hs
    simp only [parseListenTargets, Bool.not_true, Bool.false_eq_true, if_false, hs] at hparse
    cases hp : parsePairs intSize (Split str ';') with
    | error e => rw [hp] at hparse; simp at hparse
    | ok ret =>
      rw [hp] at hparse
      simp only [Prod.mk.injEq, Option.some.injEq, and_true] at hparse
      subst hparse
      rw [String_eq_Join, parsePairs_canonical intSize h _ ret hp hc]
      exact List.intercalate_splitOn str ';'

/-- C2, witness: the two-listener string of the package test. -/
theorem String_parseListenTargets_canonical_witness :
    ListenConfigs.String [⟨"0.0.0.0:80".toList, 3⟩, ⟨"/tmp/foo.sock".toList, 4⟩]
      = "0.0.0.0:80=3;/tmp/foo.sock=4".toList :=
  String_parseListenTargets_canonical 64 (by decide) "0.0.0.0:80=3;/tmp/foo.sock=4".toList
    [⟨"0.0.0.0:80".toList, 3⟩, ⟨"/tmp/foo.sock".toList, 4⟩] (by decide) (by decide)

/-- C3: for every non-empty string, `parseListenTargets(str, true)` returns an
error exactly when some `;`-separated segment holds no `=` or the trimmed text
after its first `=` is not a base-10 unsigned integer that fits the machine
word; and when it returns an error the returned list is nil. -/
theorem parseListenTargets_error_iff (intSize : Nat) (h : intSize ≤ 64) (str : Str)
    (hstr : str ≠ []) :
    ((parseListenTargets intSize str true).2 ≠ none ↔
        ∃ seg ∈ str.splitOn ';',
          '=' ∉ seg ∨ ¬ IsUintLiteral intSize (TrimSpace (afterFirstEq seg))) ∧
      ((parseListenTargets intSize str true).2 ≠ none →
        (parseListenTargets intSize str true).1 = none) := by
  have hiff := parsePairs_isOk_iff intSize h (Split str ';')
  simp only [parseListenTargets, Bool.not_true, Bool.false_eq_true, if_false, hstr]
  cases hp : parsePairs intSize (Split str ';') with
  | error e =>
    refine ⟨?_, fun _ => rfl⟩
    simp only [ne_eq, reduceCtorEq, not_false_eq_true, true_iff]
    by_contra hcon
    push_neg at hcon
    obtain ⟨ll, hll⟩ := hiff.mpr (fun seg hseg => hcon seg hseg)
    rw [hp] at hll
    exact absurd hll (by simp)
  | ok ret =>
    refine ⟨?_, fun hne => absurd rfl hne⟩
    simp only [ne_eq, not_true_eq_false, false_iff, not_exists, not_and, not_or, not_not]
    intro seg hseg
    exact hiff.mp ⟨ret, hp⟩ seg hseg

/-- C3, witness: the two rejected strings of the package test, an invalid fd
and a missing fd, give an error and a nil list. -/
theorem parseListenTargets_error_iff_witness :
    ((parseListenTargets 64 "0.0.0.0:80=foo".toList true).2 ≠ none ∧
        (parseListenTargets 64 "0.0.0.0:80=foo".toList true).1 = none) ∧
      ((parseListenTargets 64 "0.0.0.0:80".toList true).2 ≠ none ∧
        (parseListenTargets 64 "0.0.0.0:80".toList true).1 = none) :=
  have h1 := parseListenTargets_error_iff 64 (by decide) "0.0.0.0:80=foo".toList (by decide)
  have h2 := parseListenTargets_error_iff 64 (by decide) "0.0.0.0:80".toList (by decide)
  have e1 := h1.1.mpr ⟨"0.0.0.0:80=foo".toList, by decide, Or.inr (by decide)⟩
  have e2 := h2.1.mpr ⟨"0.0.0.0:80".toList, by decide, Or.inl (by decide)⟩
  ⟨⟨e1, h1.2 e1⟩, ⟨e2, h2.2 e2⟩⟩

/-- C4: without the environment variable (`ok` false) `parseListenTargets`
returns the nil list and the sentinel `ErrNoListeningTarget`, whatever the
string; with the variable present and empty it returns the empty list and no
error. -/
theorem parseListenTargets_absent_or_empty (intSize : Nat) (str : Str) :
    parseListenTargets intSize str false = (none, some .ErrNoListeningTarget) ∧
      parseListenTargets intSize [] true = (some [], none) :=
  ⟨rfl, rfl⟩

/-- C5, the code at the input of the package test: the list holds the config
with address `127.0.0.1:8000` and fd 7, and `Listen` on network `unix` for
the address `127.0.0.1:8000` compares the address with `l.String()`, which is
`127.0.0.1:8000=7`, and returns the error of an address that is not bound. -/
theorem Listen_unix_compares_String (resolve : Str → Str → Option (List Str)) :
    ListenConfigs.Listen resolve [⟨"127.0.0.1:8000".toList, 7⟩] "unix".toList
        "127.0.0.1:8000".toList
      = .notBound "127.0.0.1:8000".toList := by
  have h1 : ¬ ("unix".toList = "tcp".toList ∨ "unix".toList = "tcp4".toList
      ∨ "unix".toList = "tcp6".toList) := by decide
  simp only [ListenConfigs.Listen, h1, if_false]
  decide

end listener

/-! ## Lemmas on the generation counter -/

namespace starter

open listener (Str FormatUint Join)

theorem created_append (a b : List Event) : created (a ++ b) = created a ++ created b := by
  induction a with
  | nil => rfl
  | cons e rest ih =>
    cases e with
    | Start cmd w =>
      cases w with
      | none => simpa [created] using ih
      | some w => simp [created, ih]
    | _ => simpa [created] using ih

theorem created_of_NoStart (ev : List Event) (h : NoStart ev) : created ev = [] := by
  induction ev with
  | nil => rfl
  | cons e rest ih =>
    have hr : NoStart rest := fun cmd w hm => h cmd w (List.mem_cons_of_mem _ hm)
    cases e with
    | Start cmd w => exact absurd (List.mem_cons_self _ _) (h cmd w)
    | _ => simpa [created] using ih hr

theorem NoStart_append (a b : List Event) (ha : NoStart a) (hb : NoStart b) : NoStart (a ++ b) := by
  intro cmd w hm
  rcases List.mem_append.mp hm with hm | hm
  · exact ha cmd w hm
  · exact hb cmd w hm

theorem GenInv_of_NoStart (s t : Starter) (ev : List Event) (hg : s.generation ≤ t.generation)
    (h : NoStart ev) : GenInv s ev t := by
  refine ⟨hg, ?_, ?_, ?_⟩
  · rw [created_of_NoStart ev h]; simp
  · rw [created_of_NoStart ev h]; simp
  · intro cmd w hm; exact absurd hm (h cmd (some w))

theorem GenInv_trans (s s1 s2 : Starter) (ev1 ev2 : List Event) (h1 : GenInv s ev1 s1)
    (h2 : GenInv s1 ev2 s2) : GenInv s (ev1 ++ ev2) s2 := by
  obtain ⟨a1, b1, c1, d1⟩ := h1
  obtain ⟨a2, b2, c2, d2⟩ := h2
  refine ⟨by omega, ?_, ?_, ?_⟩
  · intro w hw
    rw [created_append] at hw
    rcases List.mem_append.mp hw with hw | hw
    · have := b1 w hw; omega
    · have := b2 w hw; omega
  · rw [created_append, List.pairwise_append]
    refine ⟨c1, c2, ?_⟩
    intro a ha b hb
    have := b1 a ha
    have := b2 b hb
    omega
  · intro cmd w hm
    rcases List.mem_append.mp hm with hm | hm
    · exact d1 cmd w hm
    · exact d2 cmd w hm

theorem NoStart_updateStatusLocked (s : Starter) (egid : Nat) (ok : Bool) :
    NoStart (updateStatusLocked s egid ok) := by
  intro cmd w
  unfold updateStatusLocked
  split
  · simp
  · split <;> simp

theorem GenInv_removeWorker (s : Starter) (w : worker) (egid : Nat) (ok : Bool) :
    GenInv s (removeWorker s w egid ok).2 (removeWorker s w egid ok).1 :=
  GenInv_of_NoStart _ _ _ (le_refl _) (NoStart_updateStatusLocked _ _ _)

theorem GenInv_runConcurrent (cs : List Concurrent) : ∀ s : Starter,
    GenInv s (runConcurrent s cs).2 (runConcurrent s cs).1 := by
  induction cs with
  | nil => intro s; exact GenInv_of_NoStart _ _ _ (le_refl _) (by intro c w; simp [runConcurrent])
  | cons c rest ih =>
    intro s
    cases c with
    | setShutdown =>
      have := ih (setShutdown s)
      simpa [runConcurrent, setShutdown] using this
    | close w egid ok =>
      have h1 := GenInv_removeWorker s w egid ok
      have h2 := ih (removeWorker s w egid ok).1
      have := GenInv_trans _ _ _ _ _ h1 h2
      simpa [runConcurrent] using this

theorem GenInv_tryToStartWorker (s : Starter) (os : OS) :
    GenInv s (tryToStartWorker s os).2.2 (tryToStartWorker s os).2.1 := by
  unfold tryToStartWorker
  split
  · exact GenInv_of_NoStart _ _ _ (le_refl _) (by intro c w; simp)
  · split
    · exact GenInv_of_NoStart _ _ _ (le_refl _) (by intro c w; simp)
    · split
      · exact GenInv_of_NoStart _ _ _ (le_refl _) (by intro c w; simp)
      · split
        · refine ⟨by simp, by simp [created], by simp [created], ?_⟩
          intro cmd w hm
          simp at hm
        · refine ⟨by simp [addWorker], ?_, ?_, ?_⟩
          · simp [addWorker, created, created_of_NoStart _ (NoStart_updateStatusLocked _ _ _)]
          · simp [addWorker, created, created_of_NoStart _ (NoStart_updateStatusLocked _ _ _)]
          · intro cmd w hm
            simp only [addWorker, List.mem_cons] at hm
            rcases hm with hm | hm
            · simp only [Event.Start.injEq, Option.some.injEq] at hm
              obtain ⟨rfl, rfl⟩ := hm
              simp
            · exact absurd hm (NoStart_updateStatusLocked _ _ _ _ _)

theorem GenInv_startWorker (attempts : Nat → Attempt) (fuel : Nat) : ∀ (i : Nat) (s : Starter),
    GenInv s (startWorker attempts fuel i s).2.2 (startWorker attempts fuel i s).2.1 := by
  induction fuel with
  | zero =>
    intro i s
    exact GenInv_of_NoStart _ _ _ (le_refl _) (by intro c w; simp [startWorker])
  | succ f ih =>
    intro i s
    have h1 := GenInv_tryToStartWorker s (attempts i).os
    rcases ht : tryToStartWorker s (attempts i).os with ⟨r, s1, ev1⟩
    rw [ht] at h1
    simp only at h1
    have h2 := GenInv_runConcurrent (attempts i).during s1
    rcases hc : runConcurrent s1 (attempts i).during with ⟨s2, ev2⟩
    rw [hc] at h2
    simp only at h2
    have h12 := GenInv_trans _ _ _ _ _ h1 h2
    have h3 := ih (i + 1) s2
    rcases hr : startWorker attempts f (i + 1) s2 with ⟨r3, s3, ev3⟩
    rw [hr] at h3
    simp only at h3
    have h123 := GenInv_trans _ _ _ _ _ h12 h3
    cases r with
    | error e =>
      simp only [startWorker, ht, hc, hr]
      split
      · exact h1
      · exact h123
    | ok w =>
      simp only [startWorker, ht, hc, hr]
      split
      · split
        · exact h12
        · exact h123
      · have h4 : GenInv s2 (if s2.EnableAutoRestart then [Event.NotifyRestarter] else []) s2 :=
          GenInv_of_NoStart _ _ _ (le_refl _) (by intro c w; split <;> simp)
        exact GenInv_trans _ _ _ _ _ h12 h4

theorem GenInv_reloadLoop (passes : Nat → ReloadPass) (fuel : Nat) : ∀ (i : Nat) (s : Starter),
    GenInv s (reloadLoop passes fuel i s).2.2 (reloadLoop passes fuel i s).2.1 := by
  induction fuel with
  | zero =>
    intro i s
    exact GenInv_of_NoStart _ _ _ (le_refl _) (by intro c w; simp [reloadLoop])
  | succ f ih =>
    intro i s
    have h1 := GenInv_startWorker (passes i).attempts (passes i).spawnFuel 0 s
    rcases ht : startWorker (passes i).attempts (passes i).spawnFuel 0 s with ⟨r, s1, ev1⟩
    rw [ht] at h1
    simp only at h1
    cases r with
    | none => simp only [reloadLoop, ht]; exact h1
    | some r =>
      cases r with
      | error e => simp only [reloadLoop, ht]; exact h1
      | ok w =>
        have h2 := GenInv_runConcurrent (passes i).during s1
        rcases hc : runConcurrent s1 (passes i).during with ⟨s2, ev2⟩
        rw [hc] at h2
        simp only at h2
        have h12 := GenInv_trans _ _ _ _ _ h1 h2
        have h3 := ih (i + 1) s2
        rcases hr : reloadLoop passes f (i + 1) s2 with ⟨r3, s3, ev3⟩
        rw [hr] at h3
        simp only at h3
        have hk : ∀ t : Starter, GenInv t (Event.Watch w ::
            ((listWorkers s1).filter (fun w2 => w2 ≠ w)).map
              (fun v => Event.Signal v (signalOnHUP s1) workerState.workerStateOld)) t :=
          fun t => GenInv_of_NoStart _ _ _ (le_refl _) (by intro c w; simp)
        simp only [reloadLoop, ht, hc, hr]
        split
        · split
          · split
            · exact h12
            · exact GenInv_trans _ _ _ _ _ h12 h3
          · exact GenInv_trans _ _ _ _ _ h12 (hk s2)
        · exact GenInv_trans _ _ _ _ _ h1 (hk s1)

theorem GenInv_Reload (passes : Nat → ReloadPass) (fuel : Nat) (s : Starter) :
    GenInv s (Reload passes fuel s).2.2 (Reload passes fuel s).2.1 := by
  unfold Reload
  split
  · exact GenInv_of_NoStart _ _ _ (le_refl _) (by intro c w; simp)
  · have h := GenInv_reloadLoop passes fuel 0 { s with chreload := s.chreload + 1 }
    rcases hr : reloadLoop passes fuel 0 { s with chreload := s.chreload + 1 } with ⟨r, s1, ev⟩
    rw [hr] at h
    cases r with
    | none => exact h
    | some r => exact h

theorem GenInv_step (s : Starter) (op : Op) : GenInv s (step s op).2 (step s op).1 := by
  cases op with
  | tryToStartWorker os => exact GenInv_tryToStartWorker s os
  | startWorker attempts fuel => exact GenInv_startWorker attempts fuel 0 s
  | Reload passes fuel => exact GenInv_Reload passes fuel s
  | removeWorker w egid ok => exact GenInv_removeWorker s w egid ok
  | setShutdown => exact GenInv_of_NoStart _ _ _ (le_refl _) (by intro c w; simp [step])

theorem GenInv_run (ops : List Op) : ∀ s : Starter, GenInv s (run s ops).2 (run s ops).1 := by
  induction ops with
  | nil => intro s; exact GenInv_of_NoStart _ _ _ (le_refl _) (by intro c w; simp [run])
  | cons op rest ih =>
    intro s
    have h1 := GenInv_step s op
    have h2 := ih (step s op).1
    simpa [run] using GenInv_trans _ _ _ _ _ h1 h2

/-! ## Lemmas on the spawn step and the status writer -/

theorem dupListeners_spec (File : Listener → Option Nat) (ls : List Listener) : ∀ i : Nat,
    (∀ l ∈ ls, (File l).isSome = true) →
      ∃ files ports, dupListeners File ls i = some (files, ports) ∧
        files.length = ls.length ∧ ports.length = ls.length ∧
        ∀ (k : Nat) (l : Listener), ls[k]? = some l →
          ports[k]? = some (l.addr ++ '=' :: FormatInt ((i : Int) + (k : Int) + 3)) ∧
            files[k]? = File l := by
  induction ls with
  | nil =>
    intro i _
    exact ⟨[], [], rfl, rfl, rfl, by simp⟩
  | cons l rest ih =>
    intro i h
    obtain ⟨f, hf⟩ := Option.isSome_iff_exists.mp (h l (List.mem_cons_self _ _))
    obtain ⟨files, ports, hd, hl1, hl2, hk⟩ :=
      ih (i + 1) (fun x hx => h x (List.mem_cons_of_mem _ hx))
    refine ⟨f :: files, (l.addr ++ '=' :: FormatInt ((i : Int) + 3)) :: ports, ?_, ?_, ?_, ?_⟩
    · simp [dupListeners, hf, hd]
    · simp [hl1]
    · simp [hl2]
    · intro k x hx
      cases k with
      | zero =>
        simp only [List.getElem?_cons_zero, Option.some.injEq] at hx
        subst hx
        simp [hf]
      | succ k =>
        simp only [List.getElem?_cons_succ] at hx
        have := hk k x hx
        simp only [List.getElem?_cons_succ, this.2, and_true]
        rw [this.1]
        congr 4
        push_cast
        ring

theorem sortSlice_generation (ws : List worker) :
    (sortSlice (fun wi wj => decide (wi.generation < wj.generation)) ws).Perm ws ∧
      (sortSlice (fun wi wj => decide (wi.generation < wj.generation)) ws).Sorted
        (fun a b => a.generation ≤ b.generation) := by
  unfold sortSlice
  refine ⟨List.perm_insertionSort _ _, ?_⟩
  have h := List.sorted_insertionSort
    (fun a b : worker => decide (b.generation < a.generation) = false) ws
  refine List.Pairwise.imp ?_ h
  intro a b hab
  simpa using hab

theorem updateStatusLocked_spec (s : Starter) (egid : Nat) (ok : Bool) (hpath : s.StatusFile ≠ [])
    (hnd : s.workers.Nodup) :
    ∃ ws : List worker, ws.Perm s.workers ∧ ws.Nodup ∧
      ws.Sorted (fun a b => a.generation ≤ b.generation) ∧
      updateStatusLocked s egid ok =
        Event.WriteFile (s.StatusFile ++ '.' :: FormatInt egid) (ws.map statusLine).flatten ::
          (if ok then [Event.Rename (s.StatusFile ++ '.' :: FormatInt egid) s.StatusFile]
            else []) := by
  obtain ⟨hp, hs⟩ := sortSlice_generation s.workers
  refine ⟨_, hp, hp.nodup_iff.mpr hnd, hs, ?_⟩
  unfold updateStatusLocked
  cases ok <;> simp [hpath]

theorem addWorker_nodup (s : Starter) (w : worker) (egid : Nat) (ok : Bool)
    (hnd : s.workers.Nodup) : (addWorker s w egid ok).1.workers.Nodup := by
  unfold addWorker
  simp only
  split
  · exact hnd
  · rename_i hw
    exact List.Nodup.append hnd (List.nodup_singleton w) (by simpa using hw)

theorem removeWorker_nodup (s : Starter) (w : worker) (egid : Nat) (ok : Bool)
    (hnd : s.workers.Nodup) : (removeWorker s w egid ok).1.workers.Nodup := by
  unfold removeWorker
  exact hnd.filter _

/-! ## Lemmas on the shutdown flag -/

theorem tryToStartWorker_shutdown (s : Starter) (os : OS) (h : s.shutdown = true) :
    tryToStartWorker s os = (.error .errShutdown, s, []) := by
  simp [tryToStartWorker, getShutdown, h]

theorem startWorker_shutdown (attempts : Nat → Attempt) (fuel i : Nat) (s : Starter)
    (h : s.shutdown = true) :
    startWorker attempts (fuel + 1) i s = (some (.error .errShutdown), s, []) := by
  simp [startWorker, tryToStartWorker_shutdown s _ h, getShutdown, h]

theorem startWorker_shutdown_frame (attempts : Nat → Attempt) (fuel i : Nat) (s : Starter)
    (h : s.shutdown = true) : (startWorker attempts fuel i s).2 = (s, []) := by
  cases fuel with
  | zero => simp [startWorker]
  | succ f => simp [startWorker_shutdown attempts f i s h]

theorem reloadLoop_shutdown_frame (passes : Nat → ReloadPass) (fuel i : Nat) (s : Starter)
    (h : s.shutdown = true) : (reloadLoop passes fuel i s).2 = (s, []) := by
  cases fuel with
  | zero => simp [reloadLoop]
  | succ f =>
    cases hf : (passes i).spawnFuel with
    | zero => simp [reloadLoop, hf, startWorker]
    | succ g => simp [reloadLoop, hf, startWorker_shutdown (passes i).attempts g 0 s h]

theorem step_after_shutdown (s : Starter) (op : Op) (h : s.shutdown = true) :
    (step s op).1.shutdown = true ∧ (step s op).1.generation = s.generation ∧
      (∀ v ∈ (step s op).1.workers, v ∈ s.workers) ∧ NoStart (step s op).2 := by
  cases op with
  | tryToStartWorker os =>
    simp only [step, tryToStartWorker_shutdown s os h]
    exact ⟨h, trivial, fun v hv => hv, by intro c w; simp⟩
  | startWorker attempts fuel =>
    have := startWorker_shutdown_frame attempts fuel 0 s h
    simp only [step, this]
    exact ⟨h, trivial, fun v hv => hv, by intro c w; simp⟩
  | Reload passes fuel =>
    simp only [step, Reload]
    split
    · exact ⟨h, rfl, fun v hv => hv, by intro c w; simp⟩
    · have hf := reloadLoop_shutdown_frame passes fuel 0 { s with chreload := s.chreload + 1 } h
      rcases hr : reloadLoop passes fuel 0 { s with chreload := s.chreload + 1 } with ⟨r, s1, ev⟩
      rw [hr] at hf
      simp only [Prod.mk.injEq] at hf
      obtain ⟨rfl, rfl⟩ := hf
      cases r with
      | none => exact ⟨h, rfl, fun v hv => hv, by intro c w; simp⟩
      | some r => exact ⟨h, rfl, fun v hv => hv, by intro c w; simp⟩
  | removeWorker w egid ok =>
    simp only [step, removeWorker]
    refine ⟨h, trivial, ?_, NoStart_updateStatusLocked _ _ _⟩
    intro v hv
    exact (List.mem_filter.mp hv).1
  | setShutdown =>
    exact ⟨rfl, rfl, fun v hv => hv, by intro c w; simp [step]⟩

theorem run_after_shutdown (ops : List Op) : ∀ s : Starter, s.shutdown = true →
    (run s ops).1.shutdown = true ∧ (run s ops).1.generation = s.generation ∧
      (∀ v ∈ (run s ops).1.workers, v ∈ s.workers) ∧ NoStart (run s ops).2 := by
  induction ops with
  | nil =>
    intro s h
    exact ⟨h, rfl, fun v hv => hv, by intro c w; simp [run]⟩
  | cons op rest ih =>
    intro s h
    obtain ⟨a1, b1, c1, d1⟩ := step_after_shutdown s op h
    obtain ⟨a2, b2, c2, d2⟩ := ih (step s op).1 a1
    simp only [run]
    exact ⟨a2, by rw [b2, b1], fun v hv => c1 v (c2 v hv), NoStart_append _ _ d1 d2⟩

/-! ## The spawn step, the status file, generations and shutdown -/

/-- C6: when `tryToStartWorker` reaches `cmd.Start()` (no shutdown, the
context not done, every `File()` succeeding), the child environment is the
parent environment, then `SERVER_STARTER_PORT=` with the `;`-join of exactly
one pair per listener, in listener order, the pair at index `i` being
`<address of listener i>=<i+3>`, then the generation and the env-dir entries;
the extra files are the duplicates of the listeners, the one of listener `i`
at index `i`; and without listeners the value is empty. -/
theorem tryToStartWorker_port_env (s : Starter) (os : OS) (hs : s.shutdown = false)
    (hctx : os.ctxDone = false) (hfile : ∀ l ∈ s.listeners, (os.File l).isSome = true) :
    ∃ (cmd : Cmd) (w : Option worker) (pairs : List Str),
      (tryToStartWorker s os).2.2.head? = some (.Start cmd w) ∧
        cmd.Env = os.Environ ++ [PortEnvName ++ '=' :: Join pairs ';',
          GenerationEnvName ++ '=' :: FormatInt (s.generation + 1)] ++ os.loadEnv ∧
        pairs.length = s.listeners.length ∧
        cmd.ExtraFiles.length = s.listeners.length ∧
        (∀ (i : Nat) (l : Listener), s.listeners[i]? = some l →
          pairs[i]? = some (l.addr ++ '=' :: FormatInt ((i : Int) + 3)) ∧
            cmd.ExtraFiles[i]? = os.File l) ∧
        (s.listeners = [] → Join pairs ';' = []) := by
  obtain ⟨files, ports, hd, hl1, hl2, hk⟩ := dupListeners_spec os.File s.listeners 0 hfile
  have hnil : s.listeners = [] → Join ports ';' = [] := by
    intro e
    rw [e] at hl2
    rw [List.length_eq_zero.mp hl2]
    rfl
  have hk2 : ∀ (i : Nat) (l : Listener), s.listeners[i]? = some l →
      ports[i]? = some (l.addr ++ '=' :: FormatInt ((i : Int) + 3)) ∧ files[i]? = os.File l := by
    intro i l hl
    have := hk i l hl
    simpa using this
  refine ⟨⟨s.Command, s.Args, files,
      os.Environ ++ [PortEnvName ++ '=' :: Join ports ';',
        GenerationEnvName ++ '=' :: FormatInt (s.generation + 1)] ++ os.loadEnv, s.Dir⟩,
    os.Start.map (fun pid => ⟨s.generation + 1, pid⟩), ports, ?_, rfl, hl2, hl1, hk2, hnil⟩
  cases hst : os.Start with
  | none => simp [tryToStartWorker, getShutdown, hs, hctx, hd, hst]
  | some pid => simp [tryToStartWorker, getShutdown, hs, hctx, hd, hst, addWorker]

/-- C6, witness: the supervisor with two listeners every call of which
succeeds. -/
theorem tryToStartWorker_port_env_witness :
    ∃ (cmd : Cmd) (w : Option worker) (pairs : List Str),
      (tryToStartWorker booted (okOS 42)).2.2.head? = some (.Start cmd w) ∧
        cmd.Env = (okOS 42).Environ ++ [PortEnvName ++ '=' :: Join pairs ';',
          GenerationEnvName ++ '=' :: FormatInt (booted.generation + 1)] ++ (okOS 42).loadEnv ∧
        pairs.length = booted.listeners.length ∧
        cmd.ExtraFiles.length = booted.listeners.length ∧
        (∀ (i : Nat) (l : Listener), booted.listeners[i]? = some l →
          pairs[i]? = some (l.addr ++ '=' :: FormatInt ((i : Int) + 3)) ∧
            cmd.ExtraFiles[i]? = (okOS 42).File l) ∧
        (booted.listeners = [] → Join pairs ';' = []) :=
  tryToStartWorker_port_env booted (okOS 42) rfl rfl (by decide)

/-- C7: with a status path configured, `addWorker` and `removeWorker` each
write, for the worker set they leave, exactly one line `<generation>:<pid>`
with a newline per worker of the set (the written workers are a permutation of
the set, without repetition), the lines in ascending order of generation, to
`<path>.<egid>`, and rename that file to the path when the write succeeded. -/
theorem status_written_on_membership_change (s : Starter) (w : worker) (egid : Nat)
    (ok : Bool) (hpath : s.StatusFile ≠ []) (hnd : s.workers.Nodup) :
    (∃ ws : List worker, ws.Perm (addWorker s w egid ok).1.workers ∧ ws.Nodup ∧
        ws.Sorted (fun a b => a.generation ≤ b.generation) ∧
        (addWorker s w egid ok).2 =
          Event.WriteFile (s.StatusFile ++ '.' :: FormatInt egid)
              (ws.map (fun v =>
                FormatInt v.generation ++ ':' :: FormatInt v.pid ++ ['\n'])).flatten ::
            (if ok then [Event.Rename (s.StatusFile ++ '.' :: FormatInt egid) s.StatusFile]
              else [])) ∧
      (∃ ws : List worker, ws.Perm (removeWorker s w egid ok).1.workers ∧ ws.Nodup ∧
        ws.Sorted (fun a b => a.generation ≤ b.generation) ∧
        (removeWorker s w egid ok).2 =
          Event.WriteFile (s.StatusFile ++ '.' :: FormatInt egid)
              (ws.map (fun v =>
                FormatInt v.generation ++ ':' :: FormatInt v.pid ++ ['\n'])).flatten ::
            (if ok then [Event.Rename (s.StatusFile ++ '.' :: FormatInt egid) s.StatusFile]
              else [])) := by
  constructor
  · exact updateStatusLocked_spec (addWorker s w egid ok).1 egid ok hpath
      (addWorker_nodup s w egid ok hnd)
  · exact updateStatusLocked_spec (removeWorker s w egid ok).1 egid ok hpath
      (removeWorker_nodup s w egid ok hnd)

/-- C7, witness: a third worker joins two, held by the map in the order
generation 2, generation 1; the file lists the generations 1, 2, 3. -/
theorem status_written_on_membership_change_witness :
    (addWorker twoWorkers ⟨3, 60⟩ 20 true).2 =
        [Event.WriteFile "status.20".toList "1:42\n2:50\n3:60\n".toList,
          Event.Rename "status.20".toList "status".toList] ∧
      ∃ ws : List worker, ws.Perm (addWorker twoWorkers ⟨3, 60⟩ 20 true).1.workers ∧ ws.Nodup ∧
        ws.Sorted (fun a b => a.generation ≤ b.generation) ∧
        (addWorker twoWorkers ⟨3, 60⟩ 20 true).2 =
          Event.WriteFile (twoWorkers.StatusFile ++ '.' :: FormatInt 20)
              (ws.map (fun v =>
                FormatInt v.generation ++ ':' :: FormatInt v.pid ++ ['\n'])).flatten ::
            (if true then
              [Event.Rename (twoWorkers.StatusFile ++ '.' :: FormatInt 20) twoWorkers.StatusFile]
              else []) :=
  ⟨by decide, (status_written_on_membership_change twoWorkers ⟨3, 60⟩ 20 true
    (by decide) (by decide)).1⟩

/-- C8: over every sequence of calls on the supervisor, spawn attempts
included, failed or not, the generation counter never decreases; the workers
created have strictly increasing generations, each above the counter at the
start of the sequence and at most the counter at its end, so no two share a
generation; every child is given the generation of its worker in
`SERVER_STARTER_GENERATION`; and a spawn from the counter 0 of a fresh
`Starter` gives generation 1. -/
theorem generations_strictly_increase (s : Starter) (ops : List Op) :
    s.generation ≤ (run s ops).1.generation ∧
      (created (run s ops).2).Pairwise (fun a b => a.generation < b.generation) ∧
      (∀ w ∈ created (run s ops).2,
        s.generation < w.generation ∧ w.generation ≤ (run s ops).1.generation) ∧
      (∀ cmd w, Event.Start cmd (some w) ∈ (run s ops).2 →
        (GenerationEnvName ++ '=' :: FormatInt w.generation) ∈ cmd.Env) ∧
      (∀ os w, s.generation = 0 → (tryToStartWorker s os).1 = .ok w → w.generation = 1) := by
  obtain ⟨h1, h2, h3, h4⟩ := GenInv_run ops s
  refine ⟨h1, h3, h2, h4, ?_⟩
  intro os w h0 hw
  unfold tryToStartWorker at hw
  split at hw
  · simp at hw
  · split at hw
    · simp at hw
    · split at hw
      · simp at hw
      · split at hw
        · simp at hw
        · simp only [addWorker, Except.ok.injEq] at hw
          rw [← hw]
          simp [h0]

/-- C8, witness: from a fresh supervisor a spawn succeeds, one fails in
`cmd.Start()` and a third succeeds: the workers have generations 1 and 3. -/
theorem generations_strictly_increase_witness :
    created (run (fresh "/bin/sleep".toList [] [])
        [.tryToStartWorker (okOS 42), .tryToStartWorker { okOS 0 with Start := none },
          .tryToStartWorker (okOS 43)]).2 = [⟨1, 42⟩, ⟨3, 43⟩] ∧
      (created (run (fresh "/bin/sleep".toList [] [])
        [.tryToStartWorker (okOS 42), .tryToStartWorker { okOS 0 with Start := none },
          .tryToStartWorker (okOS 43)]).2).Pairwise (fun a b => a.generation < b.generation) :=
  ⟨by decide, (generations_strictly_increase (fresh "/bin/sleep".toList [] [])
    [.tryToStartWorker (okOS 42), .tryToStartWorker { okOS 0 with Start := none },
      .tryToStartWorker (okOS 43)]).2.1⟩

/-! ## Lemmas on the shutdown flag over every call -/

theorem ShutdownFrame_refl (s : Starter) (h : s.shutdown = true) : ShutdownFrame s [] s :=
  ⟨h, rfl, fun _ hv => hv, fun _ _ hm => (by cases hm)⟩

theorem ShutdownFrame_trans (s t u : Starter) (ev1 ev2 : List Event)
    (h1 : ShutdownFrame s ev1 t) (h2 : ShutdownFrame t ev2 u) :
    ShutdownFrame s (ev1 ++ ev2) u :=
  ⟨h2.1, h2.2.1.trans h1.2.1, fun v hv => h1.2.2.1 v (h2.2.2.1 v hv),
    NoStart_append _ _ h1.2.2.2 h2.2.2.2⟩

theorem ShutdownFrame_of_fields (s t : Starter) (ev : List Event) (h : s.shutdown = true)
    (hs : t.shutdown = s.shutdown) (hg : t.generation = s.generation)
    (hw : t.workers = s.workers) (hn : NoStart ev) : ShutdownFrame s ev t :=
  ⟨hs.trans h, hg, fun _ hv => hw ▸ hv, hn⟩

theorem NoStart_close (net : NetOS) (s : Starter) : NoStart (close net s) := by
  intro cmd w hm
  unfold close at hm
  rcases List.mem_cons.mp hm with hm | hm
  · cases hm
  · obtain ⟨l, hl, hm⟩ := List.mem_flatten.mp hm
    obtain ⟨x, _, rfl⟩ := List.mem_map.mp hl
    rcases List.mem_cons.mp hm with hm | hm
    · cases hm
    · split at hm <;> simp at hm

theorem frame_Close (net : NetOS) (s : Starter) (h : s.shutdown = true) :
    ShutdownFrame s (Close net s).2 (Close net s).1 := by
  unfold Close
  split
  · exact ShutdownFrame_refl s h
  · exact ShutdownFrame_of_fields _ _ _ h rfl rfl rfl (NoStart_close net s)

theorem frame_runConcurrent (cs : List Concurrent) : ∀ s : Starter, s.shutdown = true →
    ShutdownFrame s (runConcurrent s cs).2 (runConcurrent s cs).1 := by
  induction cs with
  | nil => intro s h; exact ShutdownFrame_refl s h
  | cons c rest ih =>
    intro s h
    cases c with
    | setShutdown =>
      have := ih (setShutdown s) rfl
      exact ⟨this.1, this.2.1, this.2.2.1, this.2.2.2⟩
    | close w egid ok =>
      have h1 : ShutdownFrame s (removeWorker s w egid ok).2 (removeWorker s w egid ok).1 :=
        ⟨h, rfl, fun v hv => (List.mem_filter.mp hv).1, NoStart_updateStatusLocked _ _ _⟩
      have h2 := ih (removeWorker s w egid ok).1 h
      exact ShutdownFrame_trans _ _ _ _ _ h1 h2

theorem NoStart_signals (ws : List worker) (sig : Signal) (st : workerState) :
    NoStart (ws.map (fun w => Event.Signal w sig st)) := by
  intro cmd w hm
  obtain ⟨x, _, hx⟩ := List.mem_map.mp hm
  cases hx

theorem frame_shutdownBySignal (net : NetOS) (ctxDone : Bool) (s : Starter) (recv : Signal)
    (h : s.shutdown = true) :
    ShutdownFrame s (shutdownBySignal net ctxDone s recv).2
      (shutdownBySignal net ctxDone s recv).1 := by
  have hg : getShutdown s = true := h
  have hc := frame_Close net s h
  simp only [shutdownBySignal, hg, Bool.true_eq_false, false_and, if_false]
  exact ShutdownFrame_trans s s _ _ _
    ⟨h, rfl, fun _ hv => hv, NoStart_signals _ _ _⟩ hc

theorem frame_Shutdown (net : NetOS) (sel : ShutdownSelect) (during : List Concurrent)
    (timeout : Bool) (s : Starter) (h : s.shutdown = true) :
    ShutdownFrame s (Shutdown net sel during timeout s).2.2
      (Shutdown net sel during timeout s).2.1 := by
  have hg : getShutdown s = true := h
  have h1 : ShutdownFrame s ((listWorkers s).map
      (fun w => Event.Signal w (signalOnTERM s) .workerStateShutdown)) s :=
    ⟨h, rfl, fun _ hv => hv, NoStart_signals _ _ _⟩
  have h2 := frame_runConcurrent during s h
  have h12 := ShutdownFrame_trans _ _ _ _ _ h1 h2
  have h3 := frame_Close net (runConcurrent s during).1 h2.1
  simp only [Shutdown, hg, Bool.true_eq_false, false_and, if_false]
  cases timeout with
  | true => simpa using h12
  | false => simpa using ShutdownFrame_trans _ _ _ _ _ h12 h3

theorem NoStart_listenPorts (intSize : Nat) (net : NetOS) (ports : List Str) :
    ∀ ls : List Listener, NoStart (listenPorts intSize net ports ls).2.2 := by
  induction ports with
  | nil => intro ls cmd w hm; cases hm
  | cons port rest ih =>
    intro ls cmd w hm
    by_cases heq : '=' ∈ port
    · simp only [listenPorts, heq, if_true] at hm
      cases hm
    · cases hl : net.Listen ls (portTarget intSize port).1 (portTarget intSize port).2 with
      | none =>
        simp only [listenPorts, heq, if_false, hl] at hm
        simp at hm
      | some l =>
        have := ih (ls ++ [l]) cmd w
        rcases hr : listenPorts intSize net rest (ls ++ [l]) with ⟨err, ls2, ev⟩
        rw [hr] at this
        simp only [listenPorts, heq, if_false, hl, hr, List.mem_cons, reduceCtorEq, false_or] at hm
        exact this hm

theorem NoStart_remove (net : NetOS) (path : Str) :
    NoStart ((if net.isSocket path then [Event.Remove path] else []) ++ [Event.Remove path]) := by
  intro cmd w hm
  split at hm <;> simp at hm

theorem NoStart_listenPaths (net : NetOS) (paths : List Str) :
    ∀ ls : List Listener, NoStart (listenPaths net paths ls).2.2 := by
  induction paths with
  | nil => intro ls cmd w hm; cases hm
  | cons path rest ih =>
    intro ls
    cases hl : net.Listen ls "unix".toList path with
    | none =>
      simp only [listenPaths, hl]
      exact NoStart_append _ _ (NoStart_remove net path) (by intro c w hm; simp at hm)
    | some l =>
      have := ih (ls ++ [l])
      rcases hr : listenPaths net rest (ls ++ [l]) with ⟨err, ls2, ev⟩
      rw [hr] at this
      simp only [listenPaths, hl, hr]
      refine NoStart_append _ _ (NoStart_remove net path) ?_
      intro c w hm
      simp only [List.mem_cons, reduceCtorEq, false_or] at hm
      exact this c w hm

theorem frame_listen (intSize : Nat) (net : NetOS) (s : Starter) (h : s.shutdown = true) :
    ShutdownFrame s (listen intSize net s).2.2 (listen intSize net s).2.1 := by
  have a := NoStart_listenPorts intSize net s.Ports []
  rcases hp : listenPorts intSize net s.Ports [] with ⟨err1, ls1, ev1⟩
  rw [hp] at a
  have b := NoStart_listenPaths net s.Paths ls1
  rcases hq : listenPaths net s.Paths ls1 with ⟨err2, ls2, ev2⟩
  rw [hq] at b
  cases err1 with
  | some e =>
    simp only [listen, hp]
    exact ⟨h, rfl, fun _ hv => hv, a⟩
  | none =>
    cases err2 with
    | some e =>
      simp only [listen, hp, hq]
      exact ⟨h, rfl, fun _ hv => hv, NoStart_append _ _ a b⟩
    | none =>
      simp only [listen, hp, hq]
      exact ⟨h, rfl, fun _ hv => hv, NoStart_append _ _ a b⟩

theorem frame_watchRestart (attempts : Nat → Attempt) (fuel : Nat) (s : Starter)
    (h : s.shutdown = true) :
    ShutdownFrame s (watchRestart attempts fuel s).2.2 (watchRestart attempts fuel s).2.1 := by
  unfold watchRestart
  split
  · exact ShutdownFrame_refl s h
  · have hf := startWorker_shutdown_frame attempts fuel 0 { s with chreload := s.chreload + 1 } h
    rcases hr : startWorker attempts fuel 0 { s with chreload := s.chreload + 1 }
      with ⟨r, s1, ev⟩
    rw [hr] at hf
    simp only [Prod.mk.injEq] at hf
    obtain ⟨rfl, rfl⟩ := hf
    cases r with
    | none => exact ShutdownFrame_of_fields _ _ _ h rfl rfl rfl (fun _ _ hm => by cases hm)
    | some r =>
      cases r with
      | error e => exact ShutdownFrame_of_fields _ _ _ h rfl rfl rfl (fun _ _ hm => by cases hm)
      | ok w =>
        exact ShutdownFrame_of_fields _ _ _ h rfl rfl rfl (fun _ _ hm => by simp at hm)

theorem frame_Run (intSize : Nat) (net : NetOS) (attempts : Nat → Attempt) (fuel : Nat)
    (s : Starter) (h : s.shutdown = true) :
    ShutdownFrame s (Run intSize net attempts fuel s).2.2
      (Run intSize net attempts fuel s).2.1 := by
  by_cases hc : s.Command = []
  · simp only [Run, hc, if_true]
    exact ShutdownFrame_refl s h
  · have h0 : ShutdownFrame s [] { s with chreload := s.chreload + 1 } :=
      ShutdownFrame_of_fields _ _ _ h rfl rfl rfl (fun _ _ hm => by cases hm)
    have hl := frame_listen intSize net { s with chreload := s.chreload + 1 } h
    rcases hq : listen intSize net { s with chreload := s.chreload + 1 } with ⟨err, s1, ev1⟩
    rw [hq] at hl
    simp only at hl
    have h01 := ShutdownFrame_trans _ _ _ _ _ h0 hl
    rw [List.nil_append] at h01
    have hclose := ShutdownFrame_trans _ _ _ _ _ h01 (frame_Close net s1 hl.1)
    cases err with
    | some e =>
      simp only [Run, hc, if_false, hq]
      exact hclose
    | none =>
      cases fuel with
      | zero =>
        simp only [Run, hc, if_false, hq, startWorker, List.append_nil]
        exact h01
      | succ f =>
        simp only [Run, hc, if_false, hq, startWorker_shutdown attempts f 0 s1 hl.1,
          List.append_nil]
        exact hclose

theorem frame_stepCall (s : Starter) (c : Call) (h : s.shutdown = true) :
    ShutdownFrame s (stepCall s c).2 (stepCall s c).1 := by
  cases c with
  | op o => exact step_after_shutdown s o h
  | listen intSize net => exact frame_listen intSize net s h
  | Close net => exact frame_Close net s h
  | shutdownBySignal net ctxDone recv => exact frame_shutdownBySignal net ctxDone s recv h
  | Shutdown net sel during timeout => exact frame_Shutdown net sel during timeout s h
  | watchRestart attempts fuel => exact frame_watchRestart attempts fuel s h
  | Run intSize net attempts fuel => exact frame_Run intSize net attempts fuel s h

theorem frame_runCalls (cs : List Call) : ∀ s : Starter, s.shutdown = true →
    ShutdownFrame s (runCalls s cs).2 (runCalls s cs).1 := by
  induction cs with
  | nil => intro s h; exact ShutdownFrame_refl s h
  | cons c rest ih =>
    intro s h
    have h1 := frame_stepCall s c h
    have h2 := ih (stepCall s c).1 h1.1
    exact ShutdownFrame_trans _ _ _ _ _ h1 h2

theorem runCalls_op (ops : List Op) : ∀ s : Starter,
    runCalls s (ops.map Call.op) = run s ops := by
  induction ops with
  | nil => intro s; rfl
  | cons o rest ih =>
    intro s
    simp only [List.map_cons, runCalls, stepCall, run, ih]

/-- C9: once the shutdown flag is set, it stays set over every sequence of
calls of the supervisor (`tryToStartWorker`, `startWorker`, `Reload`,
`removeWorker`, `setShutdown`, `listen`, `Close`, `shutdownBySignal`,
`Shutdown`, the restart task of `watch` and `Run`), in which the generation
counter does not move, no `cmd.Start()` is run and no worker joins the worker
set; a `tryToStartWorker` or a `startWorker` after the sequence returns
`errShutdown` with the state unchanged and without any effect; the sequences
of calls of `Op` are among these sequences; and `addWorker`, which only
`tryToStartWorker` calls, keeps the flag too. -/
theorem shutdown_is_monotonic (s : Starter) (calls : List Call) (os : OS)
    (attempts : Nat → Attempt) (fuel : Nat) (hs : s.shutdown = true) :
    (runCalls s calls).1.shutdown = true ∧
      (runCalls s calls).1.generation = s.generation ∧
      (∀ v ∈ (runCalls s calls).1.workers, v ∈ s.workers) ∧
      (∀ cmd w, Event.Start cmd w ∉ (runCalls s calls).2) ∧
      tryToStartWorker (runCalls s calls).1 os
        = (.error .errShutdown, (runCalls s calls).1, []) ∧
      startWorker attempts (fuel + 1) 0 (runCalls s calls).1
        = (some (.error .errShutdown), (runCalls s calls).1, []) ∧
      (∀ ops : List Op, runCalls s (ops.map Call.op) = run s ops) ∧
      (∀ w egid ok, (addWorker s w egid ok).1.shutdown = true) := by
  obtain ⟨h1, h2, h3, h4⟩ := frame_runCalls calls s hs
  exact ⟨h1, h2, h3, h4, tryToStartWorker_shutdown _ os h1,
    startWorker_shutdown attempts fuel 0 _ h1, fun ops => runCalls_op ops s,
    fun _ _ _ => hs⟩

/-- C9, witness: after the flag is set on the supervisor with two workers, a
shutdown by `SIGTERM`, a spawn, a reload, a `Run`, a `listen`, the restart
task of `watch`, a `Shutdown`, a `Close` and the exit of a worker are run: the
flag is still set and the generation counter is still 2. -/
theorem shutdown_is_monotonic_witness :
    (setShutdown twoWorkers).shutdown = true ∧
      (runCalls (setShutdown twoWorkers)
        [.shutdownBySignal allFree false SIGTERM, .op (.tryToStartWorker (okOS 42)),
          .op (.Reload (fun _ => ⟨healthy, 2, [], false⟩) 2), .Run 64 allFree healthy 2,
          .listen 64 allFree, .watchRestart healthy 2,
          .Shutdown allFree .acquired [] false, .Close allFree,
          .op (.removeWorker ⟨1, 42⟩ 20 true)]).1.shutdown = true ∧
      (runCalls (setShutdown twoWorkers)
        [.shutdownBySignal allFree false SIGTERM, .op (.tryToStartWorker (okOS 42)),
          .op (.Reload (fun _ => ⟨healthy, 2, [], false⟩) 2), .Run 64 allFree healthy 2,
          .listen 64 allFree, .watchRestart healthy 2,
          .Shutdown allFree .acquired [] false, .Close allFree,
          .op (.removeWorker ⟨1, 42⟩ 20 true)]).1.generation = 2 :=
  have h := shutdown_is_monotonic (setShutdown twoWorkers)
    [.shutdownBySignal allFree false SIGTERM, .op (.tryToStartWorker (okOS 42)),
      .op (.Reload (fun _ => ⟨healthy, 2, [], false⟩) 2), .Run 64 allFree healthy 2,
      .listen 64 allFree, .watchRestart healthy 2,
      .Shutdown allFree .acquired [] false, .Close allFree,
      .op (.removeWorker ⟨1, 42⟩ 20 true)] (okOS 44) healthy 0 rfl
  ⟨rfl, h.1, h.2.1⟩

/-- C10: when the reload channel already holds its token, `Reload` returns nil
at once with the state unchanged (the generation counter, the worker set and
the token of the reload in flight included) and without any effect: no
`cmd.Start()`, no signal to a worker; and so does every further `Reload` of a
sequence of requests, none of which is queued. -/
theorem Reload_dropped_while_reloading (s : Starter) (passes : Nat → ReloadPass) (fuel : Nat)
    (reqs : List ((Nat → ReloadPass) × Nat)) (hheld : 1 ≤ s.chreload) :
    Reload passes fuel s = (some none, s, []) ∧
      run s (reqs.map (fun r => Op.Reload r.1 r.2)) = (s, []) := by
  have hone : ∀ (p : Nat → ReloadPass) (f : Nat), Reload p f s = (some none, s, []) := by
    intro p f
    unfold Reload
    rw [if_pos hheld]
  refine ⟨hone passes fuel, ?_⟩
  induction reqs with
  | nil => rfl
  | cons r rest ih =>
    simp only [List.map_cons, run, step, hone r.1 r.2, ih, List.append_nil]

/-- C10, witness: a reload on the booted supervisor while the token is held;
the same reload, with the channel free, does spawn a worker. -/
theorem Reload_dropped_while_reloading_witness :
    Reload (fun _ => ⟨fun _ => ⟨okOS 43, [], false⟩, 2, [], false⟩) 2
        { twoWorkers with chreload := 1 }
      = (some none, { twoWorkers with chreload := 1 }, []) ∧
    created (Reload (fun _ => ⟨fun _ => ⟨okOS 43, [], false⟩, 2, [], false⟩) 2
        twoWorkers).2.2 = [⟨3, 43⟩] :=
  ⟨(Reload_dropped_while_reloading _ _ _ [] (by decide)).1, by decide⟩

end starter

namespace starter

open listener (Str FormatUint Join)

/-! ## Lemmas on `listWorkers` and the shutdown paths -/

theorem sortSlice_never_less {α : Type} (less : α → α → Bool) (h : ∀ a b, less a b = false)
    (x : List α) : sortSlice less x = x := by
  unfold sortSlice
  induction x with
  | nil => rfl
  | cons a rest ih =>
    rw [List.insertionSort_cons _ (fun b _ => h b a), ih]

theorem listWorkers_eq (s : Starter) : listWorkers s = s.workers :=
  sortSlice_never_less _ (fun a _ => by simp) s.workers

theorem signalOnTERM_eq (s : Starter) : signalOnTERM s = s.SignalOnTERM.getD SIGTERM := by
  unfold signalOnTERM
  cases s.SignalOnTERM <;> rfl

theorem mem_close (net : NetOS) (s : Starter) (w : worker) (sig : Signal) (st : workerState) :
    Event.Signal w sig st ∉ close net s := by
  unfold close
  intro h
  rcases List.mem_cons.mp h with h | h
  · cases h
  · obtain ⟨l, hl, hm⟩ := List.mem_flatten.mp h
    obtain ⟨x, _, rfl⟩ := List.mem_map.mp hl
    rcases List.mem_cons.mp hm with hm | hm
    · cases hm
    · split at hm <;> simp at hm

theorem mem_Close (net : NetOS) (s : Starter) (w : worker) (sig : Signal) (st : workerState) :
    Event.Signal w sig st ∉ (Close net s).2 := by
  unfold Close
  split
  · simp
  · exact mem_close net s w sig st

theorem shutdownBySignal_events (net : NetOS) (ctxDone : Bool) (s : Starter) (recv : Signal)
    (h : s.shutdown = true ∨ ctxDone = false) :
    ∃ t : Starter, (shutdownBySignal net ctxDone s recv).2 =
      s.workers.map (fun w =>
        Event.Signal w (termRelay s.SignalOnTERM recv) .workerStateShutdown) ++ (Close net t).2 := by
  have hcond : ¬ (getShutdown s = false ∧ ctxDone = true) := by
    unfold getShutdown
    rcases h with h | h <;> simp [h]
  unfold shutdownBySignal
  rw [if_neg hcond]
  refine ⟨if getShutdown s = false then setShutdown s else s, ?_⟩
  simp only [listWorkers_eq, signalOnTERM_eq, termRelay]
  by_cases hs : getShutdown s = false <;> simp [hs, setShutdown]

theorem shutdownBySignal_signals (net : NetOS) (ctxDone : Bool) (s : Starter) (recv : Signal)
    (w : worker) (sig : Signal) (st : workerState)
    (hm : Event.Signal w sig st ∈ (shutdownBySignal net ctxDone s recv).2) :
    sig = termRelay s.SignalOnTERM recv ∧ st = .workerStateShutdown ∧ w ∈ s.workers := by
  by_cases h : s.shutdown = true ∨ ctxDone = false
  · obtain ⟨t, ht⟩ := shutdownBySignal_events net ctxDone s recv h
    rw [ht] at hm
    rcases List.mem_append.mp hm with hm | hm
    · obtain ⟨v, hv, he⟩ := List.mem_map.mp hm
      simp only [Event.Signal.injEq] at he
      obtain ⟨rfl, rfl, rfl⟩ := he
      exact ⟨rfl, rfl, hv⟩
    · exact absurd hm (mem_Close net t w sig st)
  · have hcond : getShutdown s = false ∧ ctxDone = true := by
      unfold getShutdown
      push_neg at h
      simpa using h
    unfold shutdownBySignal at hm
    rw [if_pos hcond] at hm
    simp at hm

/-- C11: `shutdownBySignal` signals workers of the worker set only, each with
the relay signal and the next state `workerStateShutdown`, the relay being the
configured TERM-relay (`SIGTERM` without one) when `SIGTERM` was received and
plain `SIGTERM` for any other received signal; unless it returns at the
cancelled context, every worker of the set is signalled so; and the HUP-relay
setting does not change what it does. -/
theorem shutdownBySignal_relays_TERM (net : NetOS) (ctxDone : Bool) (s : Starter)
    (recv : Signal) (hup : Option Signal) :
    (∀ w sig st, Event.Signal w sig st ∈ (shutdownBySignal net ctxDone s recv).2 →
        sig = termRelay s.SignalOnTERM recv ∧ st = .workerStateShutdown ∧ w ∈ s.workers) ∧
      ((s.shutdown = true ∨ ctxDone = false) → ∀ w ∈ s.workers,
        Event.Signal w (termRelay s.SignalOnTERM recv) .workerStateShutdown
          ∈ (shutdownBySignal net ctxDone s recv).2) ∧
      (termRelay s.SignalOnTERM SIGTERM = s.SignalOnTERM.getD SIGTERM ∧
        termRelay s.SignalOnTERM SIGINT = SIGTERM ∧
        termRelay s.SignalOnTERM SIGQUIT = SIGTERM) ∧
      (shutdownBySignal net ctxDone { s with SignalOnHUP := hup } recv).2
        = (shutdownBySignal net ctxDone s recv).2 := by
  refine ⟨?_, ?_, ⟨rfl, rfl, rfl⟩, ?_⟩
  · exact shutdownBySignal_signals net ctxDone s recv
  · intro h w hw
    obtain ⟨t, ht⟩ := shutdownBySignal_events net ctxDone s recv h
    rw [ht]
    exact List.mem_append_left _ (List.mem_map.mpr ⟨w, hw, rfl⟩)
  · cases hs : s.shutdown <;> cases ctxDone <;> cases ho : s.onceClose <;>
      simp [shutdownBySignal, getShutdown, setShutdown, signalOnTERM, listWorkers, Close, close,
        hs, ho]

/-- C11, witness: two workers and the TERM-relay `SIGQUIT`; on `SIGTERM` both
workers get `SIGQUIT`, on `SIGINT` both get `SIGTERM`. -/
theorem shutdownBySignal_relays_TERM_witness :
    (shutdownBySignal allFree false { twoWorkers with SignalOnTERM := some SIGQUIT } SIGTERM).2
        = [Event.Signal ⟨2, 50⟩ SIGQUIT .workerStateShutdown,
            Event.Signal ⟨1, 42⟩ SIGQUIT .workerStateShutdown] ++
          close allFree twoWorkers ∧
      Event.Signal ⟨1, 42⟩ SIGTERM .workerStateShutdown
        ∈ (shutdownBySignal allFree false
            { twoWorkers with SignalOnTERM := some SIGQUIT } SIGINT).2 :=
  ⟨by decide, (shutdownBySignal_relays_TERM allFree false
    { twoWorkers with SignalOnTERM := some SIGQUIT } SIGINT none).2.1 (Or.inr rfl) ⟨1, 42⟩
      (by decide)⟩

/-- C16, the code on a worker set that the map gives in the order pid 50,
pid 42: the comparator `workers[i].Pid() < workers[i].Pid()` is false for
every pair, so `listWorkers` returns the workers, each once, in the order of
the map, here not in ascending order of pid. -/
theorem listWorkers_keeps_map_order :
    (∀ s : Starter, listWorkers s = s.workers) ∧
      listWorkers twoWorkers = [⟨2, 50⟩, ⟨1, 42⟩] ∧
      ¬ (listWorkers twoWorkers).Sorted (fun a b => a.pid ≤ b.pid) :=
  ⟨listWorkers_eq, by decide, by decide⟩

/-- C13, the code on the ports 8080 and 8081 with 8081 taken: `listen` binds
`0.0.0.0:8080`, fails on `0.0.0.0:8081` and returns that error, which `Run`
returns without a spawn; the slice with the bound listener was never stored in
`s.listeners`, so neither `listen` nor the deferred `Close` closes the
listener of 8080. -/
theorem listen_failure_leaves_listener_open :
    Run 64 portTaken healthy 3 twoPorts =
        (some (some (.listen (.listenErr "tcp4".toList "0.0.0.0:8081".toList))),
          { twoPorts with chreload := 1, onceClose := true },
          [Event.Listen "tcp4".toList "0.0.0.0:8080".toList (some ⟨"0.0.0.0:8080".toList, 5⟩),
            Event.Listen "tcp4".toList "0.0.0.0:8081".toList none, Event.Cancel]) ∧
      bound (Run 64 portTaken healthy 3 twoPorts).2.2 = [⟨"0.0.0.0:8080".toList, 5⟩] ∧
      Event.CloseListener ⟨"0.0.0.0:8080".toList, 5⟩ ∉ (Run 64 portTaken healthy 3 twoPorts).2.2 ∧
      created (Run 64 portTaken healthy 3 twoPorts).2.2 = [] := by
  decide

/-! ## Lemmas on `watch` -/

theorem watchLoop_states (w : worker) (cmds : List workerSignal) (rest : List WatchSelect) :
    ∀ state : workerState,
      (watchLoop w state (cmds.map .chsig ++ .done :: rest)).1 = cmds.map (fun c => c.state) ∧
        (watchLoop w state (cmds.map .chsig)).1 = cmds.map (fun c => c.state) := by
  induction cmds with
  | nil =>
    intro state
    constructor
    · cases state <;> rfl
    · rfl
  | cons c cs ih =>
    intro state
    obtain ⟨h1, h2⟩ := ih c.state
    constructor
    · show c.state :: (watchLoop w c.state (cs.map .chsig ++ .done :: rest)).1 = _
      rw [h1]; rfl
    · show c.state :: (watchLoop w c.state (cs.map .chsig)).1 = _
      rw [h2]; rfl

/-- C14, counterexample: the worker of generation 1 is a victim of a reload
and gets the command `Old`, a later shutdown sends it the command `Shutdown`,
and the state `watch` tracks goes from `Init` to `Old` and then on to
`Shutdown`: it changes twice. -/
theorem watch_state_changes_twice :
    Event.Signal ⟨1, 42⟩ SIGTERM .workerStateOld
        ∈ (Reload (fun _ => ⟨healthy, 2, [], false⟩) 2 twoWorkers).2.2 ∧
      Event.Signal ⟨1, 42⟩ SIGTERM .workerStateShutdown
        ∈ (shutdownBySignal allFree false
            (Reload (fun _ => ⟨healthy, 2, [], false⟩) 2 twoWorkers).2.1 SIGINT).2 ∧
      (watch ⟨1, 42⟩ [.chsig ⟨SIGTERM, .workerStateOld⟩,
          .chsig ⟨SIGTERM, .workerStateShutdown⟩, .done]).1
        = [.workerStateOld, .workerStateShutdown] ∧
      ¬ ChangesAtMostOnce (watch ⟨1, 42⟩ [.chsig ⟨SIGTERM, .workerStateOld⟩,
          .chsig ⟨SIGTERM, .workerStateShutdown⟩, .done]).1 := by
  refine ⟨by decide, by decide, by decide, ?_⟩
  intro h
  have := h 0 1 .workerStateOld .workerStateShutdown (by decide) (by decide) (by decide)
    (by decide)
  cases this

/-! ## Lemmas on the trace of `Reload` -/

theorem NoWatchSignal_nil : NoWatchSignal [] :=
  ⟨fun _ h => (by cases h), fun _ _ _ h => (by cases h)⟩

theorem NoWatchSignal_append (a b : List Event) (ha : NoWatchSignal a) (hb : NoWatchSignal b) :
    NoWatchSignal (a ++ b) := by
  constructor
  · intro w hm
    rcases List.mem_append.mp hm with hm | hm
    · exact ha.1 w hm
    · exact hb.1 w hm
  · intro w sig st hm
    rcases List.mem_append.mp hm with hm | hm
    · exact ha.2 w sig st hm
    · exact hb.2 w sig st hm

theorem NoWatchSignal_updateStatusLocked (s : Starter) (egid : Nat) (ok : Bool) :
    NoWatchSignal (updateStatusLocked s egid ok) := by
  unfold updateStatusLocked
  split
  · exact NoWatchSignal_nil
  · split <;> exact ⟨fun _ h => (by simp at h), fun _ _ _ h => (by simp at h)⟩

theorem SameConfig_refl (s : Starter) : SameConfig s s := ⟨rfl, rfl, rfl⟩

theorem SameConfig_trans (s t u : Starter) (h1 : SameConfig s t) (h2 : SameConfig t u) :
    SameConfig s u :=
  ⟨h2.1.trans h1.1, h2.2.1.trans h1.2.1, h2.2.2.trans h1.2.2⟩

theorem SameConfig_relay (s t : Starter) (h : SameConfig s t) :
    signalOnHUP t = signalOnHUP s ∧ killOldDelay t = killOldDelay s := by
  obtain ⟨h1, h2, h3⟩ := h
  simp only [signalOnHUP, killOldDelay, h1, h2, h3, and_self]

theorem quiet_removeWorker (s : Starter) (w : worker) (egid : Nat) (ok : Bool) :
    NoWatchSignal (removeWorker s w egid ok).2 ∧ SameConfig s (removeWorker s w egid ok).1 :=
  ⟨NoWatchSignal_updateStatusLocked _ _ _, rfl, rfl, rfl⟩

theorem quiet_runConcurrent (cs : List Concurrent) : ∀ s : Starter,
    NoWatchSignal (runConcurrent s cs).2 ∧ SameConfig s (runConcurrent s cs).1 := by
  induction cs with
  | nil => intro s; exact ⟨NoWatchSignal_nil, SameConfig_refl s⟩
  | cons c rest ih =>
    intro s
    cases c with
    | setShutdown =>
      obtain ⟨h1, h2⟩ := ih (setShutdown s)
      exact ⟨h1, h2⟩
    | close w egid ok =>
      obtain ⟨a1, a2⟩ := quiet_removeWorker s w egid ok
      obtain ⟨b1, b2⟩ := ih (removeWorker s w egid ok).1
      exact ⟨NoWatchSignal_append _ _ a1 b1, SameConfig_trans _ _ _ a2 b2⟩

theorem quiet_tryToStartWorker (s : Starter) (os : OS) :
    NoWatchSignal (tryToStartWorker s os).2.2 ∧ SameConfig s (tryToStartWorker s os).2.1 := by
  unfold tryToStartWorker
  split
  · exact ⟨NoWatchSignal_nil, SameConfig_refl s⟩
  · split
    · exact ⟨NoWatchSignal_nil, SameConfig_refl s⟩
    · split
      · exact ⟨NoWatchSignal_nil, SameConfig_refl s⟩
      · split
        · exact ⟨⟨fun _ h => (by simp at h), fun _ _ _ h => (by simp at h)⟩, rfl, rfl, rfl⟩
        · refine ⟨?_, rfl, rfl, rfl⟩
          have hu := NoWatchSignal_updateStatusLocked
          simp only [addWorker]
          constructor
          · intro w hm
            rcases List.mem_cons.mp hm with hm | hm
            · cases hm
            · exact (hu _ _ _).1 w hm
          · intro w sig st hm
            rcases List.mem_cons.mp hm with hm | hm
            · cases hm
            · exact (hu _ _ _).2 w sig st hm

theorem quiet_startWorker (attempts : Nat → Attempt) (fuel : Nat) : ∀ (i : Nat) (s : Starter),
    NoWatchSignal (startWorker attempts fuel i s).2.2 ∧
      SameConfig s (startWorker attempts fuel i s).2.1 := by
  induction fuel with
  | zero =>
    intro i s
    exact ⟨NoWatchSignal_nil, SameConfig_refl s⟩
  | succ f ih =>
    intro i s
    obtain ⟨a1, a2⟩ := quiet_tryToStartWorker s (attempts i).os
    rcases ht : tryToStartWorker s (attempts i).os with ⟨r, s1, ev1⟩
    rw [ht] at a1 a2
    simp only at a1 a2
    obtain ⟨b1, b2⟩ := quiet_runConcurrent (attempts i).during s1
    rcases hc : runConcurrent s1 (attempts i).during with ⟨s2, ev2⟩
    rw [hc] at b1 b2
    simp only at b1 b2
    obtain ⟨c1, c2⟩ := ih (i + 1) s2
    rcases hr : startWorker attempts f (i + 1) s2 with ⟨r3, s3, ev3⟩
    rw [hr] at c1 c2
    simp only at c1 c2
    have h12 := NoWatchSignal_append _ _ a1 b1
    have s12 := SameConfig_trans _ _ _ a2 b2
    cases r with
    | error e =>
      simp only [startWorker, ht, hc, hr]
      split
      · exact ⟨a1, a2⟩
      · exact ⟨NoWatchSignal_append _ _ h12 c1, SameConfig_trans _ _ _ s12 c2⟩
    | ok w =>
      simp only [startWorker, ht, hc, hr]
      split
      · split
        · exact ⟨h12, s12⟩
        · exact ⟨NoWatchSignal_append _ _ h12 c1, SameConfig_trans _ _ _ s12 c2⟩
      · refine ⟨NoWatchSignal_append _ _ h12 ?_, s12⟩
        split
        · exact ⟨fun _ h => (by simp at h), fun _ _ _ h => (by simp at h)⟩
        · exact NoWatchSignal_nil

theorem reloadLoop_died (passes : Nat → ReloadPass) (fuel i : Nat) (s s1 : Starter) (w : worker)
    (ev1 : List Event)
    (hspawn : startWorker (passes i).attempts (passes i).spawnFuel 0 s = (some (.ok w), s1, ev1))
    (hdelay : killOldDelay s > 0) (hdied : (passes i).died = true)
    (hsh : (runConcurrent s1 (passes i).during).1.shutdown = false) :
    reloadLoop passes (fuel + 1) i s =
      ((reloadLoop passes fuel (i + 1) (runConcurrent s1 (passes i).during).1).1,
        (reloadLoop passes fuel (i + 1) (runConcurrent s1 (passes i).during).1).2.1,
        ev1 ++ (runConcurrent s1 (passes i).during).2 ++
          (reloadLoop passes fuel (i + 1) (runConcurrent s1 (passes i).during).1).2.2) := by
  have hq := (quiet_startWorker (passes i).attempts (passes i).spawnFuel 0 s).2
  rw [hspawn] at hq
  have hd : killOldDelay s1 > 0 := by rw [(SameConfig_relay s s1 hq).2]; exact hdelay
  simp only [reloadLoop, hspawn, hd, if_true, hdied, getShutdown, hsh, Bool.false_eq_true,
    if_false]

theorem reloadLoop_elapsed (passes : Nat → ReloadPass) (fuel i : Nat) (s s1 : Starter)
    (w : worker) (ev1 : List Event)
    (hspawn : startWorker (passes i).attempts (passes i).spawnFuel 0 s = (some (.ok w), s1, ev1))
    (hdelay : killOldDelay s > 0) (hdied : (passes i).died = false) :
    reloadLoop passes (fuel + 1) i s =
      (some none, (runConcurrent s1 (passes i).during).1,
        ev1 ++ (runConcurrent s1 (passes i).during).2 ++
          Event.Watch w :: ((listWorkers s1).filter (fun w2 => w2 ≠ w)).map
            (fun v => Event.Signal v (signalOnHUP s) .workerStateOld)) := by
  have hq := (quiet_startWorker (passes i).attempts (passes i).spawnFuel 0 s).2
  rw [hspawn] at hq
  have hd : killOldDelay s1 > 0 := by rw [(SameConfig_relay s s1 hq).2]; exact hdelay
  simp only [reloadLoop, hspawn, hd, if_true, hdied, Bool.false_eq_true, if_false,
    (SameConfig_relay s s1 hq).1]

theorem reloadLoop_starts_with_startWorker (passes : Nat → ReloadPass) (fuel i : Nat)
    (s : Starter) :
    (startWorker (passes i).attempts (passes i).spawnFuel 0 s).2.2
      <+: (reloadLoop passes (fuel + 1) i s).2.2 := by
  rcases ht : startWorker (passes i).attempts (passes i).spawnFuel 0 s with ⟨r, s1, ev1⟩
  rcases hc : runConcurrent s1 (passes i).during with ⟨s2, ev2⟩
  rcases hr : reloadLoop passes fuel (i + 1) s2 with ⟨r3, s3, ev3⟩
  cases r with
  | none => simp only [reloadLoop, ht]; exact List.prefix_refl _
  | some r =>
    cases r with
    | error e => simp only [reloadLoop, ht]; exact List.prefix_refl _
    | ok w =>
      simp only [reloadLoop, ht, hc, hr]
      split
      · split
        · split
          · simp only [List.append_assoc]; exact List.prefix_append _ _
          · simp only [List.append_assoc]; exact List.prefix_append _ _
        · simp only [List.append_assoc]; exact List.prefix_append _ _
      · exact List.prefix_append _ _

theorem reloadLoop_shape (passes : Nat → ReloadPass) (fuel : Nat) : ∀ (i : Nat) (s : Starter),
    SameConfig s (reloadLoop passes fuel i s).2.1 ∧
    ∃ pre post, (reloadLoop passes fuel i s).2.2 = pre ++ post ∧ NoWatchSignal pre ∧
      (post = [] ∨ ∃ (j : Nat) (w : worker) (vs : List worker), i ≤ j ∧
        ((passes j).died = false ∨ ¬ killOldDelay s > 0) ∧
        post = Event.Watch w :: vs.map (fun v => Event.Signal v (signalOnHUP s) .workerStateOld)) := by
  induction fuel with
  | zero =>
    intro i s
    exact ⟨SameConfig_refl s, [], [], rfl, NoWatchSignal_nil, Or.inl rfl⟩
  | succ f ih =>
    intro i s
    obtain ⟨a1, a2⟩ := quiet_startWorker (passes i).attempts (passes i).spawnFuel 0 s
    rcases ht : startWorker (passes i).attempts (passes i).spawnFuel 0 s with ⟨r, s1, ev1⟩
    rw [ht] at a1 a2
    simp only at a1 a2
    cases r with
    | none =>
      simp only [reloadLoop, ht]
      exact ⟨a2, ev1, [], (List.append_nil _).symm, a1, Or.inl rfl⟩
    | some r =>
      cases r with
      | error e =>
        simp only [reloadLoop, ht]
        exact ⟨a2, ev1, [], (List.append_nil _).symm, a1, Or.inl rfl⟩
      | ok w =>
        obtain ⟨b1, b2⟩ := quiet_runConcurrent (passes i).during s1
        rcases hc : runConcurrent s1 (passes i).during with ⟨s2, ev2⟩
        rw [hc] at b1 b2
        simp only at b1 b2
        have s12 := SameConfig_trans _ _ _ a2 b2
        have h12 := NoWatchSignal_append _ _ a1 b1
        obtain ⟨c2, pre3, post3, e3, n3, p3⟩ := ih (i + 1) s2
        rcases hr : reloadLoop passes f (i + 1) s2 with ⟨r3, s3, ev3⟩
        rw [hr] at c2 e3
        simp only at c2 e3
        have hrel1 := SameConfig_relay s s1 a2
        have hrel2 := SameConfig_relay s s2 s12
        simp only [reloadLoop, ht, hc, hr]
        split
        · rename_i hd
          split
          · rename_i hdied
            split
            · exact ⟨s12, ev1 ++ ev2, [], (List.append_nil _).symm, h12, Or.inl rfl⟩
            · refine ⟨SameConfig_trans _ _ _ s12 c2, ev1 ++ ev2 ++ pre3, post3, ?_,
                NoWatchSignal_append _ _ h12 n3, ?_⟩
              · rw [e3]; simp only [List.append_assoc]
              · rcases p3 with p3 | ⟨j, w3, vs, hj, hc3, hp⟩
                · exact Or.inl p3
                · refine Or.inr ⟨j, w3, vs, by omega, ?_, ?_⟩
                  · rw [hrel2.2] at hc3; exact hc3
                  · rw [hrel2.1] at hp; exact hp
          · rename_i hdied
            refine ⟨s12, ev1 ++ ev2, _, rfl, h12, Or.inr ⟨i, w,
              (listWorkers s1).filter (fun w2 => w2 ≠ w), le_refl _, Or.inl ?_, ?_⟩⟩
            · simpa using hdied
            · rw [hrel1.1]
        · rename_i hd
          refine ⟨a2, ev1, _, rfl, a1, Or.inr ⟨i, w,
            (listWorkers s1).filter (fun w2 => w2 ≠ w), le_refl _, Or.inr ?_, ?_⟩⟩
          · rw [← hrel1.2]; exact hd
          · rw [hrel1.1]

theorem Reload_trace (passes : Nat → ReloadPass) (fuel : Nat) (s : Starter) :
    (Reload passes fuel s).2.2 = [] ∨
      (Reload passes fuel s).2.2
        = (reloadLoop passes fuel 0 { s with chreload := s.chreload + 1 }).2.2 := by
  unfold Reload
  split
  · exact Or.inl rfl
  · rcases hr : reloadLoop passes fuel 0 { s with chreload := s.chreload + 1 } with ⟨r, s1, ev⟩
    cases r <;> exact Or.inr rfl

theorem Reload_signals_Old (passes : Nat → ReloadPass) (fuel : Nat) (s : Starter) (v : worker)
    (sig : Signal) (st : workerState) (h : Event.Signal v sig st ∈ (Reload passes fuel s).2.2) :
    st = .workerStateOld := by
  rcases Reload_trace passes fuel s with e | e
  · rw [e] at h; cases h
  · rw [e] at h
    obtain ⟨_, pre, post, e2, hn, hp⟩ :=
      reloadLoop_shape passes fuel 0 { s with chreload := s.chreload + 1 }
    rw [e2] at h
    rcases List.mem_append.mp h with h | h
    · exact absurd h (hn.2 v sig st)
    · rcases hp with hp | ⟨j, w, vs, _, _, hp⟩
      · rw [hp] at h; cases h
      · rw [hp] at h
        rcases List.mem_cons.mp h with h | h
        · cases h
        · obtain ⟨x, _, hx⟩ := List.mem_map.mp h
          simp only [Event.Signal.injEq] at hx
          exact hx.2.2.symm

theorem Shutdown_signals_Shutdown (net : NetOS) (sel : ShutdownSelect) (during : List Concurrent)
    (timeout : Bool) (s : Starter) (v : worker) (sig : Signal) (st : workerState)
    (h : Event.Signal v sig st ∈ (Shutdown net sel during timeout s).2.2) :
    st = .workerStateShutdown := by
  have hmap : ∀ (l : List worker) (g : Signal),
      Event.Signal v sig st ∈ l.map (fun w => Event.Signal w g .workerStateShutdown) →
        st = .workerStateShutdown := by
    intro l g hm
    obtain ⟨x, _, hx⟩ := List.mem_map.mp hm
    simp only [Event.Signal.injEq] at hx
    exact hx.2.2.symm
  unfold Shutdown at h
  by_cases h1 : getShutdown s = false ∧ sel = .ctxDone
  · rw [if_pos h1] at h; cases h
  · rw [if_neg h1] at h
    by_cases h2 : getShutdown s = false ∧ sel = .starterDone
    · rw [if_pos h2] at h; cases h
    · rw [if_neg h2] at h
      generalize (if getShutdown s = false then setShutdown s else s) = s1 at h
      have hq := (quiet_runConcurrent during s1).1
      cases timeout with
      | true =>
        simp only [if_true] at h
        rcases List.mem_append.mp h with h | h
        · exact hmap _ _ h
        · exact absurd h (hq.2 v sig st)
      | false =>
        simp only [Bool.false_eq_true, if_false] at h
        rcases List.mem_append.mp h with h | h
        · rcases List.mem_append.mp h with h | h
          · exact hmap _ _ h
          · exact absurd h (hq.2 v sig st)
        · exact absurd h (mem_Close net _ v sig st)

/-- C14, amended: the state `watch` tracks is, after each command, the state
that command carries; when every command carries `Old` or `Shutdown`, the
state never returns to `Init` once it has left it; and the commands of the
supervisor do: `Reload` sends `Old`, `shutdownBySignal` and `Shutdown` send
`Shutdown`. The state may change again after it has left `Init`. -/
theorem watch_state_follows_commands (w : worker) (cmds : List workerSignal)
    (rest : List WatchSelect) :
    (watch w (cmds.map .chsig ++ .done :: rest)).1 = cmds.map (fun c => c.state) ∧
      ((∀ c ∈ cmds, c.state = .workerStateOld ∨ c.state = .workerStateShutdown) →
        ∀ st ∈ (watch w (cmds.map .chsig ++ .done :: rest)).1, st ≠ .workerStateInit) ∧
      (∀ passes fuel s v sig st, Event.Signal v sig st ∈ (Reload passes fuel s).2.2 →
        st = .workerStateOld) ∧
      (∀ net ctxDone s recv v sig st,
        Event.Signal v sig st ∈ (shutdownBySignal net ctxDone s recv).2 →
          st = .workerStateShutdown) ∧
      (∀ net sel during timeout s v sig st,
        Event.Signal v sig st ∈ (Shutdown net sel during timeout s).2.2 →
          st = .workerStateShutdown) := by
  have h1 := (watchLoop_states w cmds rest .workerStateInit).1
  refine ⟨h1, ?_, Reload_signals_Old, ?_, Shutdown_signals_Shutdown⟩
  · intro hc st hst
    unfold watch at hst
    rw [h1] at hst
    obtain ⟨c, hcm, rfl⟩ := List.mem_map.mp hst
    rcases hc c hcm with e | e <;> rw [e] <;> decide
  · intro net ctxDone s recv v sig st hm
    exact (shutdownBySignal_signals net ctxDone s recv v sig st hm).2.1

/-- C14, witness: the commands `Old` and then `Shutdown`: the state never
returns to `Init`. -/
theorem watch_state_follows_commands_witness :
    (watch ⟨1, 42⟩ [.chsig ⟨SIGTERM, .workerStateOld⟩,
        .chsig ⟨SIGTERM, .workerStateShutdown⟩, .done]).1
      = [.workerStateOld, .workerStateShutdown] ∧
    ∀ st ∈ (watch ⟨1, 42⟩ [.chsig ⟨SIGTERM, .workerStateOld⟩,
        .chsig ⟨SIGTERM, .workerStateShutdown⟩, .done]).1, st ≠ .workerStateInit :=
  have h := watch_state_follows_commands ⟨1, 42⟩
    [⟨SIGTERM, .workerStateOld⟩, ⟨SIGTERM, .workerStateShutdown⟩] []
  ⟨h.1, h.2.1 (by decide)⟩

/-- C15: in a pass of `Reload` with a kill-old delay above zero in which
`startWorker` gave the worker `w`: if the exit of `w` is seen before the delay
timer and the shutdown flag is not set, the pass has no `Watch` and no
`Signal` among its effects and the loop goes on with a new `startWorker`,
whose effects come next; if the timer fires first, the pass ends `Reload`
with `Watch` on `w` and then one `Signal` with the HUP-relay and the state
`Old` for each worker of the worker set other than `w`, and nothing after.
In every trace of the loop a `Watch` or a `Signal` occurs only in such a
closing block of a pass whose delay elapsed. -/
theorem Reload_signals_victims_after_watch (passes : Nat → ReloadPass) (fuel i : Nat)
    (s s1 : Starter) (w : worker) (ev1 : List Event)
    (hspawn : startWorker (passes i).attempts (passes i).spawnFuel 0 s = (some (.ok w), s1, ev1))
    (hdelay : killOldDelay s > 0) :
    ((passes i).died = true → (runConcurrent s1 (passes i).during).1.shutdown = false →
        reloadLoop passes (fuel + 2) i s =
          ((reloadLoop passes (fuel + 1) (i + 1) (runConcurrent s1 (passes i).during).1).1,
            (reloadLoop passes (fuel + 1) (i + 1) (runConcurrent s1 (passes i).during).1).2.1,
            ev1 ++ (runConcurrent s1 (passes i).during).2 ++
              (reloadLoop passes (fuel + 1) (i + 1)
                (runConcurrent s1 (passes i).during).1).2.2) ∧
          NoWatchSignal (ev1 ++ (runConcurrent s1 (passes i).during).2) ∧
          (startWorker (passes (i + 1)).attempts (passes (i + 1)).spawnFuel 0
              (runConcurrent s1 (passes i).during).1).2.2
            <+: (reloadLoop passes (fuel + 1) (i + 1)
              (runConcurrent s1 (passes i).during).1).2.2) ∧
      ((passes i).died = false →
        reloadLoop passes (fuel + 1) i s =
          (some none, (runConcurrent s1 (passes i).during).1,
            ev1 ++ (runConcurrent s1 (passes i).during).2 ++
              Event.Watch w :: (s1.workers.filter (fun v => v ≠ w)).map
                (fun v => Event.Signal v (signalOnHUP s) .workerStateOld)) ∧
          NoWatchSignal (ev1 ++ (runConcurrent s1 (passes i).during).2)) ∧
      (∀ (n k : Nat) (t : Starter), killOldDelay t > 0 →
        ∃ pre post, (reloadLoop passes n k t).2.2 = pre ++ post ∧ NoWatchSignal pre ∧
          (post = [] ∨ ∃ (j : Nat) (v : worker) (vs : List worker), k ≤ j ∧
            (passes j).died = false ∧
            post = Event.Watch v ::
              vs.map (fun x => Event.Signal x (signalOnHUP t) .workerStateOld))) := by
  have hq := (quiet_startWorker (passes i).attempts (passes i).spawnFuel 0 s).1
  rw [hspawn] at hq
  have hquiet : NoWatchSignal (ev1 ++ (runConcurrent s1 (passes i).during).2) :=
    NoWatchSignal_append _ _ hq (quiet_runConcurrent (passes i).during s1).1
  refine ⟨?_, ?_, ?_⟩
  · intro hdied hsh
    exact ⟨reloadLoop_died passes (fuel + 1) i s s1 w ev1 hspawn hdelay hdied hsh, hquiet,
      reloadLoop_starts_with_startWorker passes fuel (i + 1) _⟩
  · intro hdied
    have := reloadLoop_elapsed passes fuel i s s1 w ev1 hspawn hdelay hdied
    rw [listWorkers_eq] at this
    exact ⟨this, hquiet⟩
  · intro n k t ht
    obtain ⟨_, pre, post, e, hn, hp⟩ := reloadLoop_shape passes n k t
    refine ⟨pre, post, e, hn, ?_⟩
    rcases hp with hp | ⟨j, v, vs, hj, hd, hp⟩
    · exact Or.inl hp
    · refine Or.inr ⟨j, v, vs, hj, ?_, hp⟩
      rcases hd with hd | hd
      · exact hd
      · exact absurd ht hd

/-- C15, witness: two workers, a delay of five seconds; the worker of the
first pass exits during the delay, the worker of the second survives it. The
reload spawns twice, then watches the second worker and signals the two old
workers, and never the dead one. -/
theorem Reload_signals_victims_after_watch_witness :
    created (Reload diesOnce 3 delayed).2.2 = [⟨3, 50⟩, ⟨4, 51⟩] ∧
      (Reload diesOnce 3 delayed).2.2.filter
          (fun e => e matches .Watch _ | .Signal _ _ _)
        = [.Watch ⟨4, 51⟩, .Signal ⟨2, 50⟩ SIGTERM .workerStateOld,
            .Signal ⟨1, 42⟩ SIGTERM .workerStateOld] ∧
      NoWatchSignal ((startWorker (diesOnce 0).attempts (diesOnce 0).spawnFuel 0
          { delayed with chreload := 1 }).2.2 ++
        (runConcurrent (startWorker (diesOnce 0).attempts (diesOnce 0).spawnFuel 0
          { delayed with chreload := 1 }).2.1 (diesOnce 0).during).2) :=
  ⟨by decide, by decide,
    ((Reload_signals_victims_after_watch diesOnce 0 0 { delayed with chreload := 1 }
      (startWorker (diesOnce 0).attempts (diesOnce 0).spawnFuel 0
        { delayed with chreload := 1 }).2.1 ⟨3, 50⟩
      (startWorker (diesOnce 0).attempts (diesOnce 0).spawnFuel 0
        { delayed with chreload := 1 }).2.2 (by rfl) (by decide)).1 (by decide)
      (by decide)).2.1⟩

end starter

namespace starter

open listener (Str FormatUint Join)

/-! ## Lemmas on `listen` -/

theorem Atoi_isOk_iff (intSize : Nat) (h1 : 1 ≤ intSize) (h64 : intSize ≤ 64) (port : Str) :
    (∃ n, Atoi intSize port = .ok n) ↔ IsBareInteger intSize port := by
  have hpow : 2 ^ (intSize - 1) < 2 ^ intSize := Nat.pow_lt_pow_right (by decide) (by omega)
  unfold Atoi ParseInt IsBareInteger
  by_cases hs : port = []
  · subst hs
    simp
  · simp only [hs, if_false]
    generalize (if port.head? = some '+' ∨ port.head? = some '-' then port.tail else port) = digits
    cases hp : listener.ParseUint intSize digits with
    | error e =>
      simp only [reduceCtorEq, exists_false, false_iff]
      rintro ⟨hne, hd, hb⟩
      have hlit : listener.IsUintLiteral intSize digits := by
        refine ⟨hne, hd, ?_⟩
        split at hb <;> omega
      obtain ⟨m, hm⟩ := (listener.ParseUint_isOk_iff intSize h64 digits).mpr hlit
      rw [hp] at hm
      cases hm
    | ok un =>
      obtain ⟨⟨hne, hd, _⟩, hv⟩ := (listener.ParseUint_ok_iff intSize h64 digits un).mp hp
      simp only [hne, hd, ne_eq, not_false_eq_true, implies_true, true_and, hv]
      by_cases hneg : port.head? = some '-'
      · simp only [hneg, decide_True, Bool.true_eq_false, false_and, if_false, true_and, if_true]
        by_cases hc : un > 2 ^ (intSize - 1)
        · simp only [hc, if_true, reduceCtorEq, exists_false, false_iff]
          rintro ⟨_, hb⟩
          omega
        · simp only [hc, if_false, Except.ok.injEq, exists_eq', true_iff]
          exact ⟨hd, by omega⟩
      · simp only [hneg, decide_False, true_and, Bool.false_eq_true, false_and, if_false]
        by_cases hc : un ≥ 2 ^ (intSize - 1)
        · simp only [hc, if_true, reduceCtorEq, exists_false, false_iff]
          rintro ⟨_, hb⟩
          omega
        · simp only [hc, if_false, Except.ok.injEq, exists_eq', true_iff]
          exact ⟨hd, by omega⟩

theorem portTarget_spec (intSize : Nat) (h1 : 1 ≤ intSize) (h64 : intSize ≤ 64) (port : Str) :
    portTarget intSize port =
      if IsBareInteger intSize port then ("tcp4".toList, "0.0.0.0:".toList ++ port)
      else ("tcp".toList, port) := by
  have hiff := Atoi_isOk_iff intSize h1 h64 port
  unfold portTarget
  cases ha : Atoi intSize port with
  | error e =>
    have : ¬ IsBareInteger intSize port := by
      intro hb
      obtain ⟨n, hn⟩ := hiff.mpr hb
      rw [ha] at hn
      cases hn
    simp only [this, if_false]
  | ok n =>
    have : IsBareInteger intSize port := hiff.mp ⟨n, ha⟩
    simp only [this, if_true]
    rfl

theorem listens_append (a b : List Event) : listens (a ++ b) = listens a ++ listens b := by
  induction a with
  | nil => rfl
  | cons e rest ih =>
    cases e <;> simp [listens, ih]

theorem listens_remove (net : NetOS) (path : Str) (tail : List Event) :
    listens ((if net.isSocket path then [Event.Remove path] else []) ++ [Event.Remove path]
      ++ tail) = listens tail := by
  split <;> rfl

theorem listenPorts_spec (intSize : Nat) (net : NetOS) (ports : List Str) :
    ∀ ls : List Listener,
      (listens (listenPorts intSize net ports ls).2.2).map (fun c => c.1)
          <+: ports.map (portTarget intSize) ∧
        ((listenPorts intSize net ports ls).1 = none →
          ∃ new : List Listener, (listenPorts intSize net ports ls).2.1 = ls ++ new ∧
            new.length = ports.length ∧
            listens (listenPorts intSize net ports ls).2.2
              = (ports.map (portTarget intSize)).zip (new.map some)) := by
  induction ports with
  | nil =>
    intro ls
    exact ⟨List.prefix_refl _, fun _ => ⟨[], (List.append_nil _).symm, rfl, rfl⟩⟩
  | cons port rest ih =>
    intro ls
    by_cases heq : '=' ∈ port
    · simp only [listenPorts, heq, if_true, listens, List.map_nil]
      exact ⟨List.nil_prefix, fun h => by cases h⟩
    · cases hl : net.Listen ls (portTarget intSize port).1 (portTarget intSize port).2 with
      | none =>
        simp only [listenPorts, heq, if_false, hl, listens, List.map_cons, List.map_nil]
        exact ⟨List.prefix_iff_eq_append.mpr (by simp), fun h => by cases h⟩
      | some l =>
        obtain ⟨h1, h2⟩ := ih (ls ++ [l])
        rcases hr : listenPorts intSize net rest (ls ++ [l]) with ⟨err, ls2, ev⟩
        rw [hr] at h1 h2
        simp only at h1 h2
        simp only [listenPorts, heq, if_false, hl, hr, listens, List.map_cons]
        refine ⟨(List.prefix_cons_inj _).mpr h1, ?_⟩
        intro he
        obtain ⟨new, e1, e2, e3⟩ := h2 he
        refine ⟨l :: new, ?_, ?_, ?_⟩
        · rw [e1]; simp
        · simp [e2]
        · rw [e3]; rfl

theorem listenPaths_spec (net : NetOS) (paths : List Str) :
    ∀ ls : List Listener,
      (listens (listenPaths net paths ls).2.2).map (fun c => c.1)
          <+: paths.map (fun p => ("unix".toList, p)) ∧
        ((listenPaths net paths ls).1 = none →
          ∃ new : List Listener, (listenPaths net paths ls).2.1 = ls ++ new ∧
            new.length = paths.length ∧
            listens (listenPaths net paths ls).2.2
              = (paths.map (fun p => ("unix".toList, p))).zip (new.map some)) := by
  induction paths with
  | nil =>
    intro ls
    exact ⟨List.prefix_refl _, fun _ => ⟨[], (List.append_nil _).symm, rfl, rfl⟩⟩
  | cons path rest ih =>
    intro ls
    cases hl : net.Listen ls "unix".toList path with
    | none =>
      simp only [listenPaths, hl, listens_remove, listens, List.map_cons, List.map_nil]
      exact ⟨List.prefix_iff_eq_append.mpr (by simp), fun h => by cases h⟩
    | some l =>
      obtain ⟨h1, h2⟩ := ih (ls ++ [l])
      rcases hr : listenPaths net rest (ls ++ [l]) with ⟨err, ls2, ev⟩
      rw [hr] at h1 h2
      simp only at h1 h2
      simp only [listenPaths, hl, hr, listens_remove, listens, List.map_cons]
      refine ⟨(List.prefix_cons_inj _).mpr h1, ?_⟩
      intro he
      obtain ⟨new, e1, e2, e3⟩ := h2 he
      refine ⟨l :: new, ?_, ?_, ?_⟩
      · rw [e1]; simp
      · simp [e2]
      · rw [e3]; rfl

theorem listen_spec (intSize : Nat) (net : NetOS) (s : Starter) :
    (listens (listen intSize net s).2.2).map (fun c => c.1)
        <+: s.Ports.map (portTarget intSize) ++ s.Paths.map (fun p => ("unix".toList, p)) ∧
      ((listen intSize net s).1 = none →
        listens (listen intSize net s).2.2
            = (s.Ports.map (portTarget intSize) ++ s.Paths.map (fun p => ("unix".toList, p))).zip
              ((listen intSize net s).2.1.listeners.map some) ∧
          (listen intSize net s).2.1.listeners.length = s.Ports.length + s.Paths.length) := by
  obtain ⟨a1, a2⟩ := listenPorts_spec intSize net s.Ports []
  rcases hp : listenPorts intSize net s.Ports [] with ⟨err1, ls1, ev1⟩
  rw [hp] at a1 a2
  simp only at a1 a2
  cases err1 with
  | some e =>
    simp only [listen, hp]
    exact ⟨a1.trans (List.prefix_append _ _), fun h => by cases h⟩
  | none =>
    obtain ⟨new1, e1, e2, e3⟩ := a2 rfl
    obtain ⟨b1, b2⟩ := listenPaths_spec net s.Paths ls1
    rcases hq : listenPaths net s.Paths ls1 with ⟨err2, ls2, ev2⟩
    rw [hq] at b1 b2
    simp only at b1 b2
    have hlen : (s.Ports.map (portTarget intSize)).length = (new1.map some).length := by
      simp [e2]
    have hpre : (listens (ev1 ++ ev2)).map (fun c => c.1)
        <+: s.Ports.map (portTarget intSize) ++ s.Paths.map (fun p => ("unix".toList, p)) := by
      rw [listens_append, List.map_append, e3, List.map_fst_zip _ _ (le_of_eq hlen)]
      exact (List.prefix_append_right_inj _).mpr b1
    cases err2 with
    | some e =>
      simp only [listen, hp, hq]
      exact ⟨hpre, fun h => by cases h⟩
    | none =>
      obtain ⟨new2, f1, f2, f3⟩ := b2 rfl
      simp only [listen, hp, hq]
      refine ⟨hpre, fun _ => ⟨?_, ?_⟩⟩
      · rw [listens_append, e3, f3, f1, e1, List.nil_append, List.map_append,
          List.zip_append hlen]
      · rw [f1, e1]
        simp [e2, f2]

/-- C12: `listen` binds a configured port that is a bare integer on the
network `tcp4` at `0.0.0.0:<port>` and any other port on `tcp` at the string
unchanged; its `lc.Listen` calls are, in order, those of the ports in `Ports`
order and then those of the paths on `unix` in `Paths` order, up to the first
failure; and when it returns nil the listener vector holds the listeners
these calls gave, in that order. -/
theorem listen_binds_ports_then_paths (intSize : Nat) (h1 : 1 ≤ intSize) (h64 : intSize ≤ 64)
    (net : NetOS) (s : Starter) :
    (∀ port : Str, portTarget intSize port =
        if IsBareInteger intSize port then ("tcp4".toList, "0.0.0.0:".toList ++ port)
        else ("tcp".toList, port)) ∧
      (listens (listen intSize net s).2.2).map (fun c => c.1)
        <+: s.Ports.map (portTarget intSize) ++ s.Paths.map (fun p => ("unix".toList, p)) ∧
      ((listen intSize net s).1 = none →
        listens (listen intSize net s).2.2
            = (s.Ports.map (portTarget intSize) ++ s.Paths.map (fun p => ("unix".toList, p))).zip
              ((listen intSize net s).2.1.listeners.map some) ∧
          (listen intSize net s).2.1.listeners.length = s.Ports.length + s.Paths.length) :=
  ⟨portTarget_spec intSize h1 h64, listen_spec intSize net s⟩

/-- C12, witness: the ports `8080` and `localhost:99` and the path
`/tmp/x.sock`, every bind succeeding. -/
theorem listen_binds_ports_then_paths_witness :
    listens (listen 64 allFree mixedPorts).2.2
        = [(("tcp4".toList, "0.0.0.0:8080".toList), some ⟨"0.0.0.0:8080".toList, 5⟩),
            (("tcp".toList, "localhost:99".toList), some ⟨"localhost:99".toList, 6⟩),
            (("unix".toList, "/tmp/x.sock".toList), some ⟨"/tmp/x.sock".toList, 7⟩)] ∧
      (listen 64 allFree mixedPorts).2.1.listeners
        = [⟨"0.0.0.0:8080".toList, 5⟩, ⟨"localhost:99".toList, 6⟩, ⟨"/tmp/x.sock".toList, 7⟩] ∧
      portTarget 64 "8080".toList =
        if IsBareInteger 64 "8080".toList then ("tcp4".toList, "0.0.0.0:".toList ++ "8080".toList)
        else ("tcp".toList, "8080".toList) :=
  ⟨by decide, by decide,
    (listen_binds_ports_then_paths 64 (by decide) (by decide) allFree mixedPorts).1
      "8080".toList⟩

end starter
